import Mathlib

/-!
# simplegen: annotation-driven code generation

A shallow embedding of the engine in `simplegen.go` / `types.go` and of the
`settable-input` directive in `examples/codegen/settable.go`.

Conventions of the embedding:

* Go strings are `String`s; every string operation is defined by structural
  recursion on the character list, so that it evaluates inside the kernel.
  Byte offsets of the source (`tag[5:]`) are character offsets here, which is
  the same thing on ASCII text.
* Go maps are association lists with unique keys.  The order of the list is
  the order in which `range` visits the map; a statement that must not depend
  on that order quantifies over it.
* `*packages.Package` identity is the package path: the engine stores one
  package per path, and groups are keyed by that path.
* Calls into the Go standard library whose result the engine cannot know
  (template parsing and execution, `format.Source`, the file system, package
  loading) are fields of an environment record.
-/

namespace Simplegen

/-! ## Strings -/

/-- Go `strings.HasPrefix` on character lists. -/
def hasPrefixChars : List Char → List Char → Bool
  | _, [] => true
  | [], _ :: _ => false
  | c :: cs, p :: ps => c == p && hasPrefixChars cs ps

/-- Go `strings.Contains` on character lists. -/
def containsChars : List Char → List Char → Bool
  | [], sub => sub.isEmpty
  | c :: cs, sub => hasPrefixChars (c :: cs) sub || containsChars cs sub

/-- Go `strings.Contains(s, substr)`. -/
def stringsContains (s substr : String) : Bool :=
  containsChars s.data substr.data

/-- Worker of `stringsSplit`: `cur` is the current piece, reversed. -/
def splitCharsAux (sep : Char) : List Char → List Char → List (List Char)
  | cur, [] => [cur.reverse]
  | cur, c :: cs =>
    if c == sep then cur.reverse :: splitCharsAux sep [] cs
    else splitCharsAux sep (c :: cur) cs

/-- Go `strings.Split(s, sep)` for a one-character separator: all pieces
between separators, at least one piece. -/
def stringsSplit (s : String) (sep : Char) : List String :=
  (splitCharsAux sep [] s.data).map String.mk

/-- Go `strings.SplitN(s, sep, 2)` for a one-character separator: the text
before the first separator and the text after it, or `s` alone when there is
no separator. -/
def stringsSplitN2 (s : String) (sep : Char) : List String :=
  let before := s.data.takeWhile (fun c => c != sep)
  match s.data.dropWhile (fun c => c != sep) with
  | [] => [s]
  | _ :: after => [String.mk before, String.mk after]

/-- Go slice expression `s[n:]`. -/
def sliceFrom (s : String) (n : Nat) : String :=
  String.mk (s.data.drop n)

/-! ## `strconv.Unquote` -/

/-- Value of a hexadecimal digit (`strconv.unhex`). -/
def unhex (c : Char) : Option Nat :=
  if '0' ≤ c ∧ c ≤ '9' then some (c.toNat - '0'.toNat)
  else if 'a' ≤ c ∧ c ≤ 'f' then some (c.toNat - 'a'.toNat + 10)
  else if 'A' ≤ c ∧ c ≤ 'F' then some (c.toNat - 'A'.toNat + 10)
  else none

/-- Reads `n` hexadecimal digits, most significant first. -/
def readHex : Nat → Nat → List Char → Option (Nat × List Char)
  | 0, v, s => some (v, s)
  | _ + 1, _, [] => none
  | n + 1, v, c :: s =>
    match unhex c with
    | none => none
    | some x => readHex n (v * 16 + x) s

/-- Reads `n` octal digits, most significant first. -/
def readOct : Nat → Nat → List Char → Option (Nat × List Char)
  | 0, v, s => some (v, s)
  | _ + 1, _, [] => none
  | n + 1, v, c :: s =>
    if '0' ≤ c ∧ c ≤ '7' then readOct n (v * 8 + (c.toNat - '0'.toNat)) s
    else none

/-- Go `utf8.ValidRune`. -/
def validRune (v : Nat) : Bool :=
  v < 0xD800 || (0xDFFF < v && v ≤ 0x10FFFF)

/-- Go `strconv.UnquoteChar(s, quote)`: decodes the first character or escape
sequence of `s`; `none` is `ErrSyntax`.  A byte produced by `\x` or an octal
escape is kept as the character with that code. -/
def unquoteChar (quote : Char) : List Char → Option (Char × List Char)
  | [] => none
  | c :: s =>
    if c == quote && (quote == '\'' || quote == '"') then none
    else if c != '\\' then some (c, s)
    else
      match s with
      | [] => none
      | e :: s =>
        if e == 'a' then some (Char.ofNat 7, s)
        else if e == 'b' then some (Char.ofNat 8, s)
        else if e == 'f' then some (Char.ofNat 12, s)
        else if e == 'n' then some ('\n', s)
        else if e == 'r' then some ('\r', s)
        else if e == 't' then some ('\t', s)
        else if e == 'v' then some (Char.ofNat 11, s)
        else if e == 'x' then
          (readHex 2 0 s).map (fun r => (Char.ofNat r.1, r.2))
        else if e == 'u' || e == 'U' then
          match readHex (if e == 'u' then 4 else 8) 0 s with
          | none => none
          | some (v, s) => if validRune v then some (Char.ofNat v, s) else none
        else if '0' ≤ e ∧ e ≤ '7' then
          match readOct 2 (e.toNat - '0'.toNat) s with
          | none => none
          | some (v, s) => if v > 255 then none else some (Char.ofNat v, s)
        else if e == '\\' then some ('\\', s)
        else if e == '\'' || e == '"' then
          if e != quote then none else some (e, s)
        else none

/-- The decoding loop of `strconv.Unquote` for `"..."` and `'...'`, started
after the opening quote; `acc` is the text decoded so far.  The input must
end exactly at the terminating quote. -/
def unquoteLoop (quote : Char) : Nat → List Char → List Char → Option (List Char)
  | 0, _, _ => none
  | _ + 1, _, [] => none
  | fuel + 1, acc, c :: s =>
    if c == quote then (if s.isEmpty then some acc else none)
    else if c == '\n' then none
    else
      match unquoteChar quote (c :: s) with
      | none => none
      | some (r, rest) =>
        if quote == '\'' then
          (if rest == ['\''] then some (acc ++ [r]) else none)
        else unquoteLoop quote fuel (acc ++ [r]) rest

/-- Go `strconv.Unquote(s)`: `s` is a double-quoted, single-quoted or
back-quoted Go literal and the result is the text it denotes; `none` is the
error return. -/
def strconvUnquote (s : String) : Option String :=
  match s.data with
  | [] => none
  | q :: rest =>
    if q == '`' then
      match rest.dropWhile (fun c => c != '`') with
      | [_] => some (String.mk ((rest.takeWhile (fun c => c != '`')).filter (fun c => c != '\r')))
      | _ => none
    else if q == '"' || q == '\'' then
      (unquoteLoop q (rest.length + 1) [] rest).map String.mk
    else none

/-! ## Struct tags (`examples/codegen/settable.go`) -/

/-- State of the loop of `parseJSONOrYamlTag`: the two candidate keys. -/
structure TagScan where
  jsonTag : String
  yamlTag : String
  deriving DecidableEq, Repr

/-- The loop of `parseJSONOrYamlTag` over the space-separated pieces of the
tag; `none` is the early `return ""` on an unquoting error. -/
def scanTags : List String → TagScan → Option TagScan
  | [], st => some st
  | tag :: tags, st =>
    let hasJSONTag := stringsContains tag "json:"
    let hasYamlTag := stringsContains tag "yaml:"
    if !hasJSONTag && !hasYamlTag then scanTags tags st
    else if hasJSONTag then
      match strconvUnquote (sliceFrom tag 5) with
      | none => none
      | some t => scanTags tags { st with jsonTag := (stringsSplit t ',').headD "" }
    else
      match strconvUnquote (sliceFrom tag 5) with
      | none => none
      | some t => scanTags tags { st with yamlTag := (stringsSplit t ',').headD "" }

/-- The function `parseJSONOrYamlTag`: the serialization key of a raw struct
tag, json before yaml, or `""` when there is none. -/
def parseJSONOrYamlTag (rawTags : String) : String :=
  if rawTags == "" then ""
  else
    match scanTags (stringsSplit rawTags ' ') { jsonTag := "", yamlTag := "" } with
    | none => ""
    | some st =>
      if st.jsonTag != "" && st.jsonTag != "-" then st.jsonTag
      else if st.yamlTag != "" && st.yamlTag != "-" then st.yamlTag
      else ""

/-! ## Type information (`go/types`, `golang.org/x/tools/go/packages`) -/

/-- Errors the modelled code creates or passes on. -/
inductive GoError where
  /-- `GetObject`: the name is not declared in the package scope. -/
  | notFound (typeName pkgPath : String)
  /-- `GetObject`: the name is declared but is not a type name. -/
  | notNamedType (typeName : String)
  /-- `GetStructType`: the underlying type is not a struct. -/
  | notStruct (typeName : String)
  /-- `parseSettableStruct`: a field without json/yaml value. -/
  | missingTag (structName fieldName : String)
  /-- `GetPackage`: the loader found other than one package. -/
  | tooManyPackages (path : String)
  /-- `NewSimpleGenerator`: the loader failed; the cause is wrapped. -/
  | cannotLoad (pkgNames : List String) (cause : GoError)
  /-- An error made outside the modelled code (generator function, template
  execution, formatting, file system, loader). -/
  | other (msg : String)
  deriving DecidableEq, Repr

/-- A `types.Package`, as `Obj().Pkg()` returns it: its path and name. -/
structure TypesPackage where
  Path : String
  Name : String
  deriving DecidableEq, Repr

/-- The shapes of `types.Type` that `extractFieldInfo` tells apart.  A named
type carries the package of its object, `Obj().Pkg()`, which is `nil` (here
`none`) for the named types of the universe scope such as `error`, and its
name.  `Other` stands for every remaining shape (array, channel, function,
anonymous struct, tuple, type parameter). -/
inductive GoType where
  | Named (pkg : Option TypesPackage) (name : String)
  | Basic (name : String)
  | Interface (str : String)
  | Pointer (elem : GoType)
  | Slice (elem : GoType)
  | Map (key elem : GoType)
  | Other
  deriving DecidableEq, Repr

/-- How a call ends when it ends: it returns its results, or it panics (a
nil pointer is dereferenced). -/
inductive Outcome (α : Type) where
  | returns (a : α)
  | panics
  deriving DecidableEq, Repr

/-- A struct field: `types.Var` together with the tag `types.Struct.Tag(i)`
returns for its position. -/
structure Field where
  Name : String
  Embedded : Bool
  Typ : GoType
  Tag : String
  deriving DecidableEq, Repr

/-- A `types.Struct`: its fields in declaration order. -/
structure StructType where
  Fields : List Field
  deriving DecidableEq, Repr

/-- What `Scope().Lookup` finds under a name: a type name, with the
underlying type of its type when that is a struct, or another object. -/
inductive Object where
  | typeName (underlying : Option StructType)
  | notType
  deriving DecidableEq, Repr

/-- A comment line (`ast.Comment`). -/
structure Comment where
  Text : String
  deriving DecidableEq, Repr

/-- A type declaration (`ast.TypeSpec`); `Doc` is `nil` or the list of the
comment group. -/
structure TypeSpec where
  Name : String
  Doc : Option (List Comment)
  deriving DecidableEq, Repr

/-- A member of a declaration block (`ast.Spec`). -/
inductive Spec where
  | typeSpec (s : TypeSpec)
  | otherSpec
  deriving DecidableEq, Repr

/-- A declaration block (`ast.GenDecl`). -/
structure GenDecl where
  Doc : Option (List Comment)
  Specs : List Spec
  deriving DecidableEq, Repr

/-- The part of an `ast.File` that `ast.Inspect` shows to the visitor of
`Generate`: its `GenDecl` nodes in traversal order, each followed by its own
specs. -/
abbrev File := List GenDecl

/-- A loaded package (`packages.Package`): `Types` is the package scope. -/
structure Package where
  PkgPath : String
  Name : String
  Types : List (String × Object)
  Syntax : List File
  deriving DecidableEq, Repr

/-! ## Go maps -/

/-- Map lookup `m[k]` with the `ok` flag. -/
def mapGet {κ ν : Type} [DecidableEq κ] (k : κ) : List (κ × ν) → Option ν
  | [] => none
  | (k', v) :: m => if k' = k then some v else mapGet k m

/-- Map assignment `m[k] = v`. -/
def mapSet {κ ν : Type} [DecidableEq κ] (k : κ) (v : ν) : List (κ × ν) → List (κ × ν)
  | [] => [(k, v)]
  | (k', v') :: m => if k' = k then (k, v) :: m else (k', v') :: mapSet k v m

/-! ## Struct lookup (`simplegen.go`) -/

/-- The method `GetObject`; the result is the struct under the type name, if
it has one. -/
def GetObject (pkg : Package) (typeName : String) : Except GoError (Option StructType) :=
  match mapGet typeName pkg.Types with
  | none => .error (.notFound typeName pkg.PkgPath)
  | some .notType => .error (.notNamedType typeName)
  | some (.typeName u) => .ok u

/-- The method `GetStructType`. -/
def GetStructType (pkg : Package) (typeName : String) : Except GoError StructType :=
  match GetObject pkg typeName with
  | .error e => .error e
  | .ok none => .error (.notStruct typeName)
  | .ok (some structType) => .ok structType

/-! ## The `settable-input` directive (`examples/codegen/settable.go`) -/

/-- A field descriptor. -/
structure InputField where
  Name : String
  TypeName : String
  Tags : String
  JSONTag : String
  deriving DecidableEq, Repr

/-- The record the directive hands to its template. -/
structure InputToSettableSpecData where
  Name : String
  Fields : List InputField
  deriving DecidableEq, Repr

/-- The function `getFieldInfo`: type text and import path of a named type
relative to the current package.  `fieldPkg` is `field.Obj().Pkg()`; the
function calls `Path()` on it first, which panics when it is `nil`. -/
def getFieldInfo (fieldPkg : Option TypesPackage) (fieldName : String) (pkg : Package) :
    Outcome (String × String) :=
  match fieldPkg with
  | none => .panics
  | some fieldPkg =>
    if fieldPkg.Path = pkg.PkgPath then .returns (fieldName, "")
    else .returns (fieldPkg.Name ++ "." ++ fieldName, fieldPkg.Path)

/-- The function `extractFieldInfo`: type text and imports of a field type. -/
def extractFieldInfo : GoType → Package → Outcome (String × List String)
  | .Named fieldPkg name, curPkg =>
    match getFieldInfo fieldPkg name curPkg with
    | .panics => .panics
    | .returns (typeName, fieldImport) =>
      .returns (typeName, if fieldImport != "" then [fieldImport] else [])
  | .Basic name, _ => .returns (name, [])
  | .Interface str, _ => .returns (str, [])
  | .Pointer elem, curPkg =>
    match extractFieldInfo elem curPkg with
    | .panics => .panics
    | .returns (typeName, imports) => .returns ("*" ++ typeName, imports)
  | .Slice elem, curPkg =>
    match extractFieldInfo elem curPkg with
    | .panics => .panics
    | .returns (typeName, imports) => .returns ("[]" ++ typeName, imports)
  | .Map key elem, curPkg =>
    match extractFieldInfo key curPkg with
    | .panics => .panics
    | .returns (keyInfo, keyImports) =>
      match extractFieldInfo elem curPkg with
      | .panics => .panics
      | .returns (elemInfo, elemImports) =>
        .returns ("map[" ++ keyInfo ++ "]" ++ elemInfo, keyImports ++ elemImports)
  | .Other, _ => .returns ("", [])

/-- The results of `parseSettableStruct`: the triple `(specData, imports,
err)`. -/
abbrev SettableResult := Option InputToSettableSpecData × List String × Option GoError

/-- The field loop of `parseSettableStruct`.  `recur` is the recursive call
for an embedded field (`none`: the call does not end within the bound);
`fields` and `imports` are the values accumulated so far.  An error result
stands for `return nil, nil, err`. -/
def parseFields (recur : String → Option (Outcome SettableResult))
    (pkg : Package) (structName : String) :
    List Field → List InputField → List String →
      Option (Outcome (Except GoError (List InputField × List String)))
  | [], fields, imports => some (.returns (.ok (fields, imports)))
  | field :: rest, fields, imports =>
    if field.Embedded then
      match recur field.Name with
      | none => none
      | some .panics => some .panics
      | some (.returns (_, _, some tagErr)) => some (.returns (.error tagErr))
      | some (.returns (none, _, none)) => some .panics
      | some (.returns (some embedInput, embedImports, none)) =>
        parseFields recur pkg structName rest
          (if embedInput.Fields.length > 0 then fields ++ embedInput.Fields else fields)
          (if embedImports.length > 0 then imports ++ embedImports else imports)
    else
      let tagValue := field.Tag
      let jsonTagValue := parseJSONOrYamlTag tagValue
      if jsonTagValue == "" then
        some (.returns (.error (.missingTag structName field.Name)))
      else
        match extractFieldInfo field.Typ pkg with
        | .panics => some .panics
        | .returns (fieldType, fieldImports) =>
          parseFields recur pkg structName rest
            (if fieldType != "" then
              fields ++ [{ Name := field.Name, TypeName := fieldType, Tags := tagValue,
                           JSONTag := jsonTagValue }]
             else fields)
            (if fieldImports.length > 0 then imports ++ fieldImports else imports)

/-- The function `parseSettableStruct`, returning the triple
`(specData, imports, err)` or panicking.  The first argument bounds the depth
of the recursion through embedded fields; `none` means the bound was
reached. -/
def parseSettableStruct : Nat → Package → String → Option (Outcome SettableResult)
  | 0, _, _ => none
  | fuel + 1, pkg, structName =>
    match GetStructType pkg structName with
    | .error err => some (.returns (none, [], some err))
    | .ok structType =>
      match parseFields (parseSettableStruct fuel pkg) pkg structName structType.Fields [] [] with
      | none => none
      | some .panics => some .panics
      | some (.returns (.error err)) => some (.returns (none, [], some err))
      | some (.returns (.ok (fields, imports))) =>
        some (.returns (some { Name := structName, Fields := fields }, imports, none))

/-! ## The engine (`simplegen.go`, `types.go`) -/

/-- The marker keyword `CmdKey`. -/
def CmdKey : String := "simplegen"

/-- A directive name. -/
abbrev GeneratorName := String

/-- A generator function, `GeneratorFunc`, for template data of type `σ`.
It is given the package, the annotated declaration and the comment line, and
returns template data and imports, or an error.  The engine handle of the
source is left out: the functions are pure, and what they read through the
handle is part of the function. -/
abbrev GeneratorFunc (σ : Type) :=
  Package → TypeSpec → Comment → Except GoError (σ × List String)

/-- A registry entry, `TemplateGenerator`. -/
structure TemplateGenerator (σ : Type) where
  Template : String
  GeneratorFunc : GeneratorFunc σ

/-- The directive registry, `GeneratorsMap`. -/
abbrev GeneratorsMap (σ : Type) := List (GeneratorName × TemplateGenerator σ)

/-- A generation group, `cmdData`. -/
structure cmdData (σ : Type) where
  PackageName : String
  Imports : List String
  Specs : List σ
  deriving DecidableEq, Repr

/-- The constructor `newGeneratorData`. -/
def newGeneratorData {σ : Type} (pkgName : String) (imports : List String) : cmdData σ :=
  { PackageName := pkgName, Imports := imports, Specs := [] }

/-- The method `cmdData.add`. -/
def cmdData.add {σ : Type} (gd : cmdData σ) (sd : σ) : cmdData σ :=
  { gd with Specs := gd.Specs ++ [sd] }

/-- The groups of an engine: directive name, then package, to group. -/
abbrev Groups (σ : Type) := List (GeneratorName × List (String × cmdData σ))

/-- The engine state, `SimpleGenerator`. -/
structure SimpleGenerator (σ : Type) where
  pkgs : List (String × Package)
  generators : GeneratorsMap σ
  cmdData : Groups σ

/-- The import loop of `SimpleGenerator.add`: `rawImports` without repeats,
in order of first occurrence. -/
def uniqueImports (rawImports : List String) : List String :=
  rawImports.foldl (fun imports rawImp =>
    if rawImp ∈ imports then imports else imports ++ [rawImp]) []

/-- The method `SimpleGenerator.add`: the state after the call and the error
returned. -/
def SimpleGenerator.add {σ : Type} (sg : SimpleGenerator σ) (genName : GeneratorName)
    (pkg : Package) (node : TypeSpec) (comment : Comment) (genFunc : GeneratorFunc σ) :
    SimpleGenerator σ × Option GoError :=
  let sg1 : SimpleGenerator σ :=
    if (mapGet genName sg.cmdData).isNone then
      { sg with cmdData := mapSet genName [] sg.cmdData }
    else sg
  match genFunc pkg node comment with
  | .error err => (sg1, some err)
  | .ok (templateData, rawImports) =>
    let imports := uniqueImports rawImports
    let genData := (mapGet genName sg1.cmdData).getD []
    let genData1 :=
      if (mapGet pkg.PkgPath genData).isNone then
        mapSet pkg.PkgPath (newGeneratorData pkg.Name imports) genData
      else genData
    let genData2 :=
      match mapGet pkg.PkgPath genData1 with
      | some gd => mapSet pkg.PkgPath (gd.add templateData) genData1
      | none => genData1
    ({ sg1 with cmdData := mapSet genName genData2 sg1.cmdData }, none)

/-- The function `copyGenDeclCommentsToSpecs`. -/
def copyGenDeclCommentsToSpecs (x : GenDecl) : GenDecl :=
  match x.Doc with
  | none => x
  | some doc =>
    { x with Specs := x.Specs.map (fun spec =>
        match spec with
        | .typeSpec s => if s.Doc.isNone then .typeSpec { s with Doc := some doc } else spec
        | .otherSpec => spec) }

/-- The state of the scan of `Generate`: the engine and the collected
`errors`. -/
abbrev ScanState (σ : Type) := SimpleGenerator σ × List GoError

/-- The body of `for _, comment := range node.Doc.List` in `Generate`. -/
def visitComment {σ : Type} (pkg : Package) (node : TypeSpec) (st : ScanState σ)
    (comment : Comment) : ScanState σ :=
  if stringsContains comment.Text CmdKey then
    st.1.generators.foldl (fun st g =>
      if stringsContains comment.Text g.1 then
        let r := st.1.add g.1 pkg node comment g.2.GeneratorFunc
        match r.2 with
        | some err => (r.1, st.2 ++ [err])
        | none => (r.1, st.2)
      else st) st
  else st

/-- The `*ast.TypeSpec` case of the visitor in `Generate`. -/
def visitTypeSpec {σ : Type} (pkg : Package) (st : ScanState σ) (node : TypeSpec) :
    ScanState σ :=
  match node.Doc with
  | none => st
  | some doc => doc.foldl (visitComment pkg node) st

/-- The visitor of `Generate` on one child of a declaration block. -/
def visitSpec {σ : Type} (pkg : Package) (st : ScanState σ) : Spec → ScanState σ
  | .typeSpec node => visitTypeSpec pkg st node
  | .otherSpec => st

/-- The traversal `ast.Inspect` of the declaration blocks of one file.  Each
block gets the `*ast.GenDecl` case (the copy-down) and then its specs are
visited.  `mk` rebuilds the package from the blocks of this file, so that the
generator functions see the package as updated so far; `done` are the blocks
already visited. -/
def inspectDecls {σ : Type} (mk : List GenDecl → Package) :
    List GenDecl → List GenDecl → ScanState σ → List GenDecl × ScanState σ
  | done, [], st => (done, st)
  | done, x :: rest, st =>
    let x1 := copyGenDeclCommentsToSpecs x
    let st1 := x1.Specs.foldl (visitSpec (mk (done ++ x1 :: rest))) st
    inspectDecls mk (done ++ [x1]) rest st1

/-- The loop `for _, fileAst := range pkg.Syntax` of `Generate`. -/
def inspectFiles {σ : Type} (pkg : Package) :
    List File → List File → ScanState σ → List File × ScanState σ
  | done, [], st => (done, st)
  | done, fileAst :: rest, st =>
    let r := inspectDecls (fun ds => { pkg with Syntax := done ++ ds :: rest }) [] fileAst st
    inspectFiles pkg (done ++ [r.1]) rest r.2

/-- The loop `for _, pkg := range sg.pkgs` of `Generate`: the packages with
their updated syntax trees and the scan state. -/
def inspectPkgs {σ : Type} :
    List (String × Package) → ScanState σ → List (String × Package) × ScanState σ
  | [], st => ([], st)
  | (k, pkg) :: rest, st =>
    let r := inspectFiles pkg [] pkg.Syntax st
    let r2 := inspectPkgs rest r.2
    ((k, { pkg with Syntax := r.1 }) :: r2.1, r2.2)

/-- The standard-library calls of the engine. -/
structure Env (σ : Type) where
  /-- The constant `header` that `write` puts before every template. -/
  header : String
  /-- Whether `template.New("").Funcs(...).Parse(raw)` succeeds. -/
  templateParse : String → Bool
  /-- The text `tmpl.Execute` produces from a group, or its error. -/
  templateExecute : String → cmdData σ → Except GoError String
  /-- The function `format.Source`. -/
  formatSource : String → Except GoError String
  /-- The error of `os.Create`, if any. -/
  osCreate : String → Option GoError
  /-- The error of `f.Write`, if any. -/
  fileWrite : String → String → Option GoError
  /-- The function `packages.Load`. -/
  packagesLoad : List String → Except GoError (List Package)

/-- What the write phase does to the outside. -/
inductive Event where
  /-- The template was executed for the group of a directive and package. -/
  | execute (genName : GeneratorName) (pkgPath : String)
  /-- The named file was created or truncated. -/
  | create (fileName : String)
  /-- The content was written to the named file. -/
  | write (fileName : String) (content : String)
  deriving DecidableEq, Repr

/-- How `Generate` or `write` ends. -/
inductive RunResult where
  /-- The value `nil`. -/
  | nil
  /-- The collected `sgErrors`. -/
  | sgErrors (errors : List GoError)
  /-- A single error returned as it is. -/
  | error (err : GoError)
  /-- A run-time panic. -/
  | panic
  deriving DecidableEq, Repr

/-- The function `writeFile`. -/
def writeFile {σ : Type} (env : Env σ) (fileName content : String) :
    List Event × Option GoError :=
  match env.osCreate fileName with
  | some err => ([], some err)
  | none =>
    match env.fileWrite fileName content with
    | some err => ([.create fileName], some err)
    | none => ([.create fileName, .write fileName content], none)

/-- The loop `for pkg, specs := range genData` of `write`.  The state is the
trace of events and the collected `errors`; an exception is a return from
inside the loop or a panic. -/
def writePkgs {σ : Type} (env : Env σ) (genName : GeneratorName) (templateRaw : String) :
    List (String × cmdData σ) → List Event × List GoError →
      Except (List Event × RunResult) (List Event × List GoError)
  | [], st => .ok st
  | (pkgPath, specs) :: rest, (trace, errors) =>
    match env.templateExecute templateRaw specs with
    | .error err => .error (trace ++ [.execute genName pkgPath], .error err)
    | .ok buf =>
      match env.formatSource buf with
      | .error err =>
        writePkgs env genName templateRaw rest
          (trace ++ [.execute genName pkgPath], errors ++ [err])
      | .ok content =>
        let parts := stringsSplitN2 pkgPath '/'
        let fName := "/" ++ genName ++ "_gen.go"
        match parts.get? 1 with
        | none => .error (trace ++ [.execute genName pkgPath], .panic)
        | some rel =>
          let w := writeFile env (rel ++ fName) content
          writePkgs env genName templateRaw rest
            (trace ++ [.execute genName pkgPath] ++ w.1,
             match w.2 with
             | some err => errors ++ [err]
             | none => errors)

/-- The loop `for genName, genData := range sg.cmdData` of `write`. -/
def writeGens {σ : Type} (env : Env σ) (generators : GeneratorsMap σ) :
    Groups σ → List Event × List GoError →
      Except (List Event × RunResult) (List Event × List GoError)
  | [], st => .ok st
  | (genName, genData) :: rest, st =>
    let cmdTemplate :=
      match mapGet genName generators with
      | some g => g.Template
      | none => ""
    let templateRaw := env.header ++ cmdTemplate
    if env.templateParse templateRaw then
      match writePkgs env genName templateRaw genData st with
      | .error r => .error r
      | .ok st1 => writeGens env generators rest st1
    else .error (st.1, .panic)

/-- The method `SimpleGenerator.write`: the events and the result. -/
def SimpleGenerator.write {σ : Type} (env : Env σ) (sg : SimpleGenerator σ) :
    List Event × RunResult :=
  match writeGens env sg.generators sg.cmdData ([], []) with
  | .error r => r
  | .ok (trace, errors) =>
    if errors.length > 0 then (trace, .sgErrors errors) else (trace, .nil)

/-- What a call of `Generate` leaves behind. -/
structure GenerateResult (σ : Type) where
  /-- The engine after the call. -/
  sg : SimpleGenerator σ
  /-- The events of the write phase. -/
  trace : List Event
  /-- The returned value. -/
  result : RunResult

/-- The method `SimpleGenerator.Generate`. -/
def SimpleGenerator.Generate {σ : Type} (env : Env σ) (sg : SimpleGenerator σ) :
    GenerateResult σ :=
  let r := inspectPkgs sg.pkgs (sg, [])
  let sg1 : SimpleGenerator σ := { r.2.1 with pkgs := r.1 }
  if r.2.2.length > 0 then { sg := sg1, trace := [], result := .sgErrors r.2.2 }
  else
    let w := sg1.write env
    { sg := sg1, trace := w.1, result := w.2 }

/-- The constructor `NewSimpleGenerator` once `os.Getwd` has succeeded. -/
def NewSimpleGenerator {σ : Type} (env : Env σ) (pkgNames : List String)
    (generators : GeneratorsMap σ) : Except GoError (SimpleGenerator σ) :=
  match env.packagesLoad pkgNames with
  | .error err => .error (.cannotLoad pkgNames err)
  | .ok pkgs =>
    .ok { generators := generators,
          pkgs := pkgs.foldl (fun m pkg => mapSet pkg.PkgPath pkg m) [],
          cmdData := [] }

/-! ## The scan as a list of matches -/

/-- One call of the generator function: a directive whose name occurs in a
comment line that carries the marker keyword. -/
structure Match (σ : Type) where
  genName : GeneratorName
  pkg : Package
  node : TypeSpec
  comment : Comment
  genFunc : GeneratorFunc σ

/-- The result of the generator call of a match. -/
def Match.call {σ : Type} (m : Match σ) : Except GoError (σ × List String) :=
  m.genFunc m.pkg m.node m.comment

/-- The error of the generator call of a match, if it fails. -/
def Match.callError {σ : Type} (m : Match σ) : Option GoError :=
  match m.call with
  | .error err => some err
  | .ok _ => none

/-- The matches of one comment line: none without the marker keyword, else
one for every registered directive whose name occurs in the line. -/
def commentMatches {σ : Type} (gens : GeneratorsMap σ) (pkg : Package) (node : TypeSpec)
    (comment : Comment) : List (Match σ) :=
  if stringsContains comment.Text CmdKey then
    (gens.filter (fun g => stringsContains comment.Text g.1)).map
      (fun g => { genName := g.1, pkg := pkg, node := node, comment := comment,
                  genFunc := g.2.GeneratorFunc })
  else []

/-- The matches of one type declaration. -/
def typeSpecMatches {σ : Type} (gens : GeneratorsMap σ) (pkg : Package) (node : TypeSpec) :
    List (Match σ) :=
  match node.Doc with
  | none => []
  | some doc => doc.flatMap (commentMatches gens pkg node)

/-- The matches of one member of a declaration block. -/
def specMatches {σ : Type} (gens : GeneratorsMap σ) (pkg : Package) : Spec → List (Match σ)
  | .typeSpec node => typeSpecMatches gens pkg node
  | .otherSpec => []

/-- The matches of the declaration blocks of a file, in traversal order. -/
def declsMatches {σ : Type} (gens : GeneratorsMap σ) (mk : List GenDecl → Package) :
    List GenDecl → List GenDecl → List (Match σ)
  | _, [] => []
  | done, x :: rest =>
    let x1 := copyGenDeclCommentsToSpecs x
    x1.Specs.flatMap (specMatches gens (mk (done ++ x1 :: rest)))
      ++ declsMatches gens mk (done ++ [x1]) rest

/-- The file after the scan: every block copied down. -/
def copyFile (f : File) : File := f.map copyGenDeclCommentsToSpecs

/-- The matches of the files of a package, in order. -/
def filesMatches {σ : Type} (gens : GeneratorsMap σ) (pkg : Package) :
    List File → List File → List (Match σ)
  | _, [] => []
  | done, fileAst :: rest =>
    declsMatches gens (fun ds => { pkg with Syntax := done ++ ds :: rest }) [] fileAst
      ++ filesMatches gens pkg (done ++ [copyFile fileAst]) rest

/-- The matches of one package. -/
def pkgMatches {σ : Type} (gens : GeneratorsMap σ) (pkg : Package) : List (Match σ) :=
  filesMatches gens pkg [] pkg.Syntax

/-- All matches of a scan, in the order in which `Generate` meets them. -/
def scanMatches {σ : Type} (sg : SimpleGenerator σ) : List (Match σ) :=
  sg.pkgs.flatMap (fun kp => pkgMatches sg.generators kp.2)

/-- One step of the scan: the call of `add` for a match and the collection of
its error. -/
def addStep {σ : Type} (st : ScanState σ) (m : Match σ) : ScanState σ :=
  let r := st.1.add m.genName m.pkg m.node m.comment m.genFunc
  match r.2 with
  | some err => (r.1, st.2 ++ [err])
  | none => (r.1, st.2)

/-- The package after the scan. -/
def copyPkg (pkg : Package) : Package := { pkg with Syntax := pkg.Syntax.map copyFile }

/-- The group of a directive and package, `cmdData[genName][pkg]`. -/
def groupOf {σ : Type} (m : Groups σ) (genName : GeneratorName) (pkgPath : String) :
    Option (cmdData σ) :=
  (mapGet genName m).bind (mapGet pkgPath)

/-- What one match does to the group it belongs to. -/
def groupStep {σ : Type} (gd : Option (cmdData σ)) (m : Match σ) : Option (cmdData σ) :=
  match m.call with
  | .error _ => gd
  | .ok (templateData, rawImports) =>
    match gd with
    | none => some ((newGeneratorData m.pkg.Name (uniqueImports rawImports)).add templateData)
    | some gd => some (gd.add templateData)

/-- Whether a match belongs to the group of a directive and package. -/
def Match.inGroup {σ : Type} (genName : GeneratorName) (pkgPath : String) (m : Match σ) : Bool :=
  decide (m.genName = genName ∧ m.pkg.PkgPath = pkgPath)

/-! ## Descriptors and rendered text -/

/-- The type text `extractFieldInfo` returns for the type of the field
(empty when the call panics). -/
def typeText (pkg : Package) (field : Field) : String :=
  match extractFieldInfo field.Typ pkg with
  | .returns r => r.1
  | .panics => ""

/-- The imports `extractFieldInfo` returns for the type of the field (none
when the call panics). -/
def fieldImports (pkg : Package) (field : Field) : List String :=
  match extractFieldInfo field.Typ pkg with
  | .returns r => r.2
  | .panics => []

/-- The descriptor `parseSettableStruct` builds for an ordinary field. -/
def fieldDescriptor (pkg : Package) (field : Field) : InputField :=
  { Name := field.Name, TypeName := typeText pkg field, Tags := field.Tag,
    JSONTag := parseJSONOrYamlTag field.Tag }

/-- Whether `extractFieldInfo` has a text for the type of the field. -/
def hasTypeText (pkg : Package) (field : Field) : Bool :=
  typeText pkg field != ""

/-! ## The passes of the loop of `write` -/

/-- The text of the template that `write` parses and executes for a
directive: the header followed by the registered template. -/
def templateRawOf {σ : Type} (env : Env σ) (generators : GeneratorsMap σ)
    (genName : GeneratorName) : String :=
  env.header ++
    match mapGet genName generators with
    | some g => g.Template
    | none => ""

/-- One pass of the loop `for pkg, specs := range genData` of `write`, for
the group `specs` of the directive `genName` and the package `pkgPath`: the
events of the pass, and either the errors it appends to `errors` or the way
in which it ends `write` (the return of the error of `tmpl.Execute`, or the
panic of `parts[1]`). -/
def writeGroup {σ : Type} (env : Env σ) (genName : GeneratorName) (templateRaw : String)
    (pkgPath : String) (specs : cmdData σ) : List Event × Except RunResult (List GoError) :=
  match env.templateExecute templateRaw specs with
  | .error err => ([.execute genName pkgPath], .error (.error err))
  | .ok buf =>
    match env.formatSource buf with
    | .error err => ([.execute genName pkgPath], .ok [err])
    | .ok content =>
      match (stringsSplitN2 pkgPath '/').get? 1 with
      | none => ([.execute genName pkgPath], .error .panic)
      | some rel =>
        let w := writeFile env (rel ++ ("/" ++ genName ++ "_gen.go")) content
        ([.execute genName pkgPath] ++ w.1, .ok w.2.toList)

/-- Whether `Generate` or `write` returned after visiting all it had to
visit: with `nil` or with the collected errors, and not by the return from
inside the loop of `write` or by a panic. -/
def RunResult.completed : RunResult → Bool
  | .nil => true
  | .sgErrors _ => true
  | .error _ => false
  | .panic => false

/-- Whether a pass of the loop of `write` reaches its end. -/
def writeGroupOk {σ : Type} (env : Env σ) (genName : GeneratorName) (templateRaw : String)
    (pkgPath : String) (specs : cmdData σ) : Bool :=
  match (writeGroup env genName templateRaw pkgPath specs).2 with
  | .ok _ => true
  | .error _ => false

/-- The errors a pass of the loop of `write` appends to `errors`. -/
def writeGroupErrors {σ : Type} (env : Env σ) (genName : GeneratorName) (templateRaw : String)
    (pkgPath : String) (specs : cmdData σ) : List GoError :=
  match (writeGroup env genName templateRaw pkgPath specs).2 with
  | .ok errors => errors
  | .error _ => []

/-- The groups as a Go map of Go maps: no key twice, at either level. -/
def groupsWellFormed {σ : Type} (m : Groups σ) : Prop :=
  (m.map Prod.fst).Nodup ∧ ∀ gi ∈ m, (gi.2.map Prod.fst).Nodup

/-! ## Example data -/

/-- The package `examples/my_project/models` of the repository: the scope with
`Common`, `User` and `PaginateOptions`, and the declarations of `models.go`
with their documentation as the Go parser attaches it (to the block). -/
def modelsPkg : Package :=
  { PkgPath := "examples/my_project/models"
    Name := "models"
    Types := [
      ("Common", .typeName (some ⟨[
        ⟨"ID", false, .Basic "int", "json:\"id\" yaml:\"id\""⟩,
        ⟨"CreatedAt", false, .Pointer (.Named (some ⟨"time", "time"⟩) "Time"),
          "json:\"createdAt\" yaml:\"createdAt\""⟩]⟩)),
      ("User", .typeName (some ⟨[
        ⟨"Common", true, .Named (some ⟨"examples/my_project/models", "models"⟩) "Common", ""⟩,
        ⟨"FirstName", false, .Basic "string", "json:\"firstName\" yaml:\"firstName\""⟩,
        ⟨"Email", false, .Basic "string", "json:\"email\" yaml:\"email\""⟩,
        ⟨"Age", false, .Basic "int", "json:\"age\" yaml:\"age\""⟩,
        ⟨"Settings", false, .Named (some ⟨"examples/my_project/models", "models"⟩) "JSONB",
          "json:\"settings\" yaml:\"settings\""⟩]⟩)),
      ("PaginateOptions", .typeName (some ⟨[
        ⟨"Cursor", false, .Pointer (.Basic "string"), "json:\"cursor\""⟩,
        ⟨"Limit", false, .Basic "int", "json:\"limit\""⟩,
        ⟨"NoPagination", false, .Basic "bool", "json:\"noPagination\""⟩]⟩)),
      ("JSONB", .typeName none)]
    Syntax := [[
      { Doc := none, Specs := [.typeSpec ⟨"JSONB", none⟩] },
      { Doc := none, Specs := [.typeSpec ⟨"Common", none⟩] },
      { Doc := some [⟨"// simplegen:settable-input"⟩, ⟨"// simplegen:paginator"⟩],
        Specs := [.typeSpec ⟨"User", none⟩] },
      { Doc := some [⟨"// PaginateOptions describes pagination."⟩],
        Specs := [.typeSpec ⟨"PaginateOptions", none⟩] }]] }

/-- A declaration block with one documented type declaration, as the parser
builds it for `// doc` followed by `type name ...`. -/
def docDecl (name doc : String) : GenDecl :=
  { Doc := some [⟨doc⟩], Specs := [.typeSpec ⟨name, none⟩] }

/-- A generator function that returns the name of the declaration and
the import `strconv`, and fails on the declaration called `Bad`. -/
def nameGen : GeneratorFunc String :=
  fun _ node _ =>
    if node.Name = "Bad" then .error (.other "cannot generate Bad")
    else .ok (node.Name, ["strconv"])

/-- An environment in which every library call succeeds: the rendered text is
the package name followed by the specs. -/
def plainEnv : Env String :=
  { header := "// Code generated\n"
    templateParse := fun _ => true
    templateExecute := fun _ gd => .ok (gd.PackageName ++ ":" ++ String.intercalate "," gd.Specs)
    formatSource := fun src => .ok src
    osCreate := fun _ => none
    fileWrite := fun _ _ => none
    packagesLoad := fun _ => .ok [] }

/-- An engine with five matching annotations in two packages; the generator
function fails for the one in `proj/a`. -/
def fiveMatches : SimpleGenerator String :=
  { pkgs := [
      ("proj/a", { PkgPath := "proj/a", Name := "a", Types := [],
                   Syntax := [[docDecl "Bad" "// simplegen:names"]] }),
      ("proj/b", { PkgPath := "proj/b", Name := "b", Types := [],
                   Syntax := [[docDecl "T1" "// simplegen:names", docDecl "T2" "// simplegen:names"],
                              [docDecl "T3" "// simplegen:names", docDecl "T4" "// simplegen:names"]] })]
    generators := [("names", { Template := "{{ .Specs }}", GeneratorFunc := nameGen })]
    cmdData := [] }

/-- An engine with one matching annotation in each of two packages. -/
def twoGroups : SimpleGenerator String :=
  { pkgs := [
      ("proj/a", { PkgPath := "proj/a", Name := "a", Types := [],
                   Syntax := [[docDecl "T0" "// simplegen:names"]] }),
      ("proj/b", { PkgPath := "proj/b", Name := "b", Types := [],
                   Syntax := [[docDecl "T1" "// simplegen:names"]] })]
    generators := [("names", { Template := "{{ .Specs }}", GeneratorFunc := nameGen })]
    cmdData := [] }

/-- An environment in which the template fails to execute for the group of
package `a`. -/
def renderFailEnv : Env String :=
  { plainEnv with
    templateExecute := fun _ gd =>
      if gd.PackageName = "a" then .error (.other "template: error calling helper")
      else .ok (gd.PackageName ++ ":" ++ String.intercalate "," gd.Specs) }

/-- An environment in which `format.Source` rejects the text rendered for
package `a`. -/
def formatFailEnv : Env String :=
  { plainEnv with
    formatSource := fun src =>
      if src = "a:T0" then .error (.other "1:1: expected 'package'") else .ok src }

/-- A generator function whose imports depend on the declaration: `strconv`
(twice) for `Plain`, `strconv` and `time` for every other one. -/
def importsGen : GeneratorFunc String :=
  fun _ node _ =>
    if node.Name = "Plain" then .ok (node.Name, ["strconv", "strconv"])
    else .ok (node.Name, ["strconv", "time"])

/-- An engine with two declarations of one package matching one directive. -/
def twoDecls : SimpleGenerator String :=
  { pkgs := [
      ("proj/a", { PkgPath := "proj/a", Name := "a", Types := [],
                   Syntax := [[docDecl "Plain" "// simplegen:names",
                               docDecl "Timed" "// simplegen:names"]] })]
    generators := [("names", { Template := "{{ .Specs }}", GeneratorFunc := importsGen })]
    cmdData := [] }

/-- A package with a struct that has a field of array type, for which
`extractFieldInfo` has no text. -/
def arrayPkg : Package :=
  { PkgPath := "proj/a", Name := "a", Syntax := [],
    Types := [("Digest", .typeName (some ⟨[
      ⟨"Sum", false, .Other, "json:\"sum\""⟩,
      ⟨"Size", false, .Basic "int", "json:\"size\""⟩]⟩))] }

/-- The struct type of `PaginateOptions` in the example package. -/
def paginateOptionsType : StructType :=
  ⟨[⟨"Cursor", false, .Pointer (.Basic "string"), "json:\"cursor\""⟩,
    ⟨"Limit", false, .Basic "int", "json:\"limit\""⟩,
    ⟨"NoPagination", false, .Basic "bool", "json:\"noPagination\""⟩]⟩

/-- The descriptors of `PaginateOptions`. -/
def paginateOptionsSpec : InputToSettableSpecData :=
  { Name := "PaginateOptions"
    Fields := [
      { Name := "Cursor", TypeName := "*string", Tags := "json:\"cursor\"", JSONTag := "cursor" },
      { Name := "Limit", TypeName := "int", Tags := "json:\"limit\"", JSONTag := "limit" },
      { Name := "NoPagination", TypeName := "bool", Tags := "json:\"noPagination\"",
        JSONTag := "noPagination" }] }

/-- The struct type of `Common` in the example package. -/
def commonType : StructType :=
  ⟨[⟨"ID", false, .Basic "int", "json:\"id\" yaml:\"id\""⟩,
    ⟨"CreatedAt", false, .Pointer (.Named (some ⟨"time", "time"⟩) "Time"),
      "json:\"createdAt\" yaml:\"createdAt\""⟩]⟩

/-- The struct type of `User` in the example package. -/
def userType : StructType :=
  ⟨[⟨"Common", true, .Named (some ⟨"examples/my_project/models", "models"⟩) "Common", ""⟩,
    ⟨"FirstName", false, .Basic "string", "json:\"firstName\" yaml:\"firstName\""⟩,
    ⟨"Email", false, .Basic "string", "json:\"email\" yaml:\"email\""⟩,
    ⟨"Age", false, .Basic "int", "json:\"age\" yaml:\"age\""⟩,
    ⟨"Settings", false, .Named (some ⟨"examples/my_project/models", "models"⟩) "JSONB",
      "json:\"settings\" yaml:\"settings\""⟩]⟩

/-- The descriptors of `User`, as rendered in `settable-input_gen.go`. -/
def userSpec : InputToSettableSpecData :=
  { Name := "User"
    Fields := [
      { Name := "ID", TypeName := "int", Tags := "json:\"id\" yaml:\"id\"", JSONTag := "id" },
      { Name := "CreatedAt", TypeName := "*time.Time",
        Tags := "json:\"createdAt\" yaml:\"createdAt\"", JSONTag := "createdAt" },
      { Name := "FirstName", TypeName := "string",
        Tags := "json:\"firstName\" yaml:\"firstName\"", JSONTag := "firstName" },
      { Name := "Email", TypeName := "string", Tags := "json:\"email\" yaml:\"email\"",
        JSONTag := "email" },
      { Name := "Age", TypeName := "int", Tags := "json:\"age\" yaml:\"age\"", JSONTag := "age" },
      { Name := "Settings", TypeName := "JSONB", Tags := "json:\"settings\" yaml:\"settings\"",
        JSONTag := "settings" }] }

/-- The template data of the two example directives: `SpecData` is `any` in
the source, here the sum of what the registered generator functions return. -/
inductive SpecData where
  | settable (spec : InputToSettableSpecData)
  | paginator (name : String)
  deriving DecidableEq, Repr

/-- The generator function `Paginator` of `examples/codegen/paginator.go`. -/
def Paginator : GeneratorFunc SpecData :=
  fun _ node _ => .ok (.paginator node.Name, ["strconv"])

/-- The generator function `Settable` of `examples/codegen/settable.go`, with
the recursion bound of `parseSettableStruct`.  A generator function has no
outcome other than a result or an error here, so a call of
`parseSettableStruct` that does not return (it panics, or the bound is
reached) is shown as an error; on the example package it returns. -/
def Settable (fuel : Nat) : GeneratorFunc SpecData :=
  fun pkg node _ =>
    match parseSettableStruct fuel pkg node.Name with
    | some (.returns (some spec, imports, none)) => .ok (.settable spec, imports)
    | some (.returns (_, _, some err)) => .error err
    | _ => .error (.other "parseSettableStruct does not return")

/-- The engine of `examples/main.go` on the package `models`, with the
directives `paginator` and `settable-input`. -/
def exampleEngine : SimpleGenerator SpecData :=
  { pkgs := [("examples/my_project/models", modelsPkg)]
    generators := [
      ("paginator", { Template := "PaginatorTemplate", GeneratorFunc := Paginator }),
      ("settable-input", { Template := "SettableTemplate", GeneratorFunc := Settable 2 })]
    cmdData := [] }

/-- The declaration of `User` after the copy-down of its block: documented
with the two directive markers of `models.go`. -/
def userNode : TypeSpec :=
  ⟨"User", some [⟨"// simplegen:settable-input"⟩, ⟨"// simplegen:paginator"⟩]⟩

/-- The engine `twoGroups` with its package map visited in the other order. -/
def twoGroupsSwapped : SimpleGenerator String :=
  { twoGroups with pkgs := twoGroups.pkgs.reverse }

/-- An engine on a package whose path has one segment only, as for the root
package of a module called `models`. -/
def rootPkgEngine : SimpleGenerator String :=
  { pkgs := [("models", { PkgPath := "models", Name := "models", Types := [],
                          Syntax := [[docDecl "User" "// simplegen:names"]] })]
    generators := [("names", { Template := "{{ .Specs }}", GeneratorFunc := nameGen })]
    cmdData := [] }

/-- What a call of `GetPackage` leaves behind. -/
structure GetPackageResult (σ : Type) where
  /-- The engine after the call. -/
  sg : SimpleGenerator σ
  /-- The returned pair `(pkg, err)`. -/
  pkg : Except GoError Package
  /-- The paths for which `packages.Load` was invoked during the call. -/
  loads : List String

/-- The method `SimpleGenerator.GetPackage`. -/
def SimpleGenerator.GetPackage {σ : Type} (env : Env σ) (sg : SimpleGenerator σ)
    (path : String) : GetPackageResult σ :=
  match mapGet path sg.pkgs with
  | some pkg => { sg := sg, pkg := .ok pkg, loads := [] }
  | none =>
    match env.packagesLoad [path] with
    | .error err => { sg := sg, pkg := .error err, loads := [path] }
    | .ok pkgs =>
      match pkgs with
      | [pkg] =>
        { sg := { sg with pkgs := mapSet path pkg sg.pkgs }, pkg := .ok pkg, loads := [path] }
      | _ => { sg := sg, pkg := .error (.tooManyPackages path), loads := [path] }

/-- What a sequence of `GetPackage` calls leaves behind. -/
structure GetPackagesResult (σ : Type) where
  /-- The engine after the calls. -/
  sg : SimpleGenerator σ
  /-- The returned pairs `(pkg, err)`, in call order. -/
  pkgs : List (Except GoError Package)
  /-- The paths for which `packages.Load` was invoked, in call order. -/
  loads : List String

/-- A sequence of `GetPackage` calls on one engine. -/
def getPackages {σ : Type} (env : Env σ) :
    SimpleGenerator σ → List String → GetPackagesResult σ
  | sg, [] => { sg := sg, pkgs := [], loads := [] }
  | sg, path :: paths =>
    let r := sg.GetPackage env path
    let rs := getPackages env r.sg paths
    { sg := rs.sg, pkgs := r.pkg :: rs.pkgs, loads := r.loads ++ rs.loads }

/-- The package `time` as the loader returns it. -/
def timePkg : Package :=
  { PkgPath := "time", Name := "time", Types := [("Time", .typeName (some ⟨[]⟩))], Syntax := [] }

/-- An environment whose loader finds the package `time`, finds two
packages for the pattern `time/...` and fails for every other path. -/
def loaderEnv : Env SpecData :=
  { header := "// Code generated\n"
    templateParse := fun _ => true
    templateExecute := fun _ gd => .ok gd.PackageName
    formatSource := fun src => .ok src
    osCreate := fun _ => none
    fileWrite := fun _ _ => none
    packagesLoad := fun paths =>
      if paths = ["time"] then .ok [timePkg]
      else if paths = ["time/..."] then .ok [timePkg, { timePkg with PkgPath := "time/tzdata" }]
      else .error (.other "no required module provides package") }

/-- A grouped declaration `type ( ... )` documented with a directive marker,
in which `A` has documentation of its own and `B` has none. -/
def groupedDecl : GenDecl :=
  { Doc := some [⟨"// simplegen:names"⟩]
    Specs := [.typeSpec ⟨"A", some [⟨"// A has its own documentation."⟩]⟩,
              .typeSpec ⟨"B", none⟩] }

/-- An engine on a package with the grouped declaration. -/
def groupedEngine : SimpleGenerator String :=
  { pkgs := [("proj/a", { PkgPath := "proj/a", Name := "a", Types := [],
                          Syntax := [[groupedDecl]] })]
    generators := [("names", { Template := "{{ .Specs }}", GeneratorFunc := nameGen })]
    cmdData := [] }

/-- The copy-down on one member of a block documented with `doc`: a type
declaration without documentation gets `doc`, every other member stays. -/
def fillDoc (doc : List Comment) : Spec → Spec
  | .typeSpec s => .typeSpec { s with Doc := some (s.Doc.getD doc) }
  | .otherSpec => .otherSpec

/-- The struct type `Failure`: both fields have a json key, the second is of
the universe-scope type `error`. -/
def failureType : StructType :=
  ⟨[⟨"Code", false, .Basic "int", "json:\"code\""⟩,
    ⟨"Err", false, .Named none "error", "json:\"err\""⟩]⟩

/-- The struct type `Report`: the first field is of type `error` and has a
json key, the second field has no tag. -/
def reportType : StructType :=
  ⟨[⟨"Err", false, .Named none "error", "json:\"err\""⟩,
    ⟨"Note", false, .Basic "string", ""⟩]⟩

/-- A package that declares `Failure` and `Report`. -/
def errorPkg : Package :=
  { PkgPath := "proj/a", Name := "a", Syntax := [],
    Types := [("Failure", .typeName (some failureType)),
              ("Report", .typeName (some reportType))] }

/-! ## Lemmas: the scan is a fold over its matches -/

theorem add_generators {σ : Type} (sg : SimpleGenerator σ) (genName : GeneratorName)
    (pkg : Package) (node : TypeSpec) (comment : Comment) (genFunc : GeneratorFunc σ) :
    (sg.add genName pkg node comment genFunc).1.generators = sg.generators := by
  unfold SimpleGenerator.add
  cases genFunc pkg node comment with
  | error err => by_cases h : (mapGet genName sg.cmdData).isNone <;> simp [h]
  | ok r => by_cases h : (mapGet genName sg.cmdData).isNone <;> simp [h]

theorem addStep_generators {σ : Type} (st : ScanState σ) (m : Match σ) :
    (addStep st m).1.generators = st.1.generators := by
  unfold addStep
  have h := add_generators st.1 m.genName m.pkg m.node m.comment m.genFunc
  cases hr : (st.1.add m.genName m.pkg m.node m.comment m.genFunc).2 <;> simpa [hr] using h

theorem foldl_addStep_generators {σ : Type} (ms : List (Match σ)) (st : ScanState σ) :
    (ms.foldl addStep st).1.generators = st.1.generators := by
  induction ms generalizing st with
  | nil => rfl
  | cons m ms ih => rw [List.foldl_cons, ih, addStep_generators]

theorem visitComment_eq {σ : Type} (pkg : Package) (node : TypeSpec) (st : ScanState σ)
    (comment : Comment) :
    visitComment pkg node st comment
      = (commentMatches st.1.generators pkg node comment).foldl addStep st := by
  unfold visitComment commentMatches
  by_cases hk : stringsContains comment.Text CmdKey = true
  · simp only [hk, if_true]
    generalize st.1.generators = gens
    induction gens generalizing st with
    | nil => rfl
    | cons g gens ih =>
      by_cases hg : stringsContains comment.Text g.1 = true
      · simp only [List.foldl_cons, hg, if_true, List.filter_cons_of_pos, List.map_cons]
        rw [ih]
        rfl
      · have hg2 : stringsContains comment.Text g.1 = false := by simpa using hg
        simp only [List.foldl_cons, hg2, List.filter_cons_of_neg, not_false_eq_true,
          Bool.false_eq_true, if_false]
        exact ih st
  · simp [hk]

theorem visitTypeSpec_eq {σ : Type} (gens : GeneratorsMap σ) (pkg : Package)
    (node : TypeSpec) (st : ScanState σ) (hg : st.1.generators = gens) :
    visitTypeSpec pkg st node = (typeSpecMatches gens pkg node).foldl addStep st := by
  unfold visitTypeSpec typeSpecMatches
  cases node.Doc with
  | none => rfl
  | some doc =>
    simp only
    induction doc generalizing st with
    | nil => rfl
    | cons c doc ih =>
      rw [List.foldl_cons, List.flatMap_cons, List.foldl_append, visitComment_eq, hg]
      apply ih
      rw [foldl_addStep_generators, hg]

theorem visitSpec_eq {σ : Type} (gens : GeneratorsMap σ) (pkg : Package)
    (spec : Spec) (st : ScanState σ) (hg : st.1.generators = gens) :
    visitSpec pkg st spec = (specMatches gens pkg spec).foldl addStep st := by
  cases spec with
  | typeSpec node => exact visitTypeSpec_eq gens pkg node st hg
  | otherSpec => rfl

theorem foldl_visitSpec_eq {σ : Type} (gens : GeneratorsMap σ) (pkg : Package)
    (specs : List Spec) (st : ScanState σ) (hg : st.1.generators = gens) :
    specs.foldl (visitSpec pkg) st = (specs.flatMap (specMatches gens pkg)).foldl addStep st := by
  induction specs generalizing st with
  | nil => rfl
  | cons spec specs ih =>
    rw [List.foldl_cons, List.flatMap_cons, List.foldl_append, visitSpec_eq gens pkg spec st hg]
    apply ih
    rw [foldl_addStep_generators, hg]

theorem inspectDecls_eq {σ : Type} (gens : GeneratorsMap σ) (mk : List GenDecl → Package)
    (done rest : List GenDecl) (st : ScanState σ) (hg : st.1.generators = gens) :
    inspectDecls mk done rest st
      = (done ++ copyFile rest, (declsMatches gens mk done rest).foldl addStep st) := by
  induction rest generalizing done st with
  | nil => simp [inspectDecls, declsMatches, copyFile]
  | cons x rest ih =>
    simp only [inspectDecls, declsMatches, List.foldl_append]
    rw [foldl_visitSpec_eq gens _ _ st hg, ih]
    · simp [copyFile]
    · rw [foldl_addStep_generators, hg]

theorem inspectFiles_eq {σ : Type} (gens : GeneratorsMap σ) (pkg : Package)
    (done rest : List File) (st : ScanState σ) (hg : st.1.generators = gens) :
    inspectFiles pkg done rest st
      = (done ++ rest.map copyFile, (filesMatches gens pkg done rest).foldl addStep st) := by
  induction rest generalizing done st with
  | nil => simp [inspectFiles, filesMatches]
  | cons f rest ih =>
    simp only [inspectFiles, filesMatches, List.foldl_append]
    rw [inspectDecls_eq gens _ _ _ st hg]
    simp only [List.nil_append]
    rw [ih]
    · simp
    · rw [foldl_addStep_generators, hg]

theorem inspectPkgs_eq {σ : Type} (gens : GeneratorsMap σ) (pkgs : List (String × Package))
    (st : ScanState σ) (hg : st.1.generators = gens) :
    inspectPkgs pkgs st
      = (pkgs.map (fun kp => (kp.1, copyPkg kp.2)),
         (pkgs.flatMap (fun kp => pkgMatches gens kp.2)).foldl addStep st) := by
  induction pkgs generalizing st with
  | nil => rfl
  | cons kp pkgs ih =>
    obtain ⟨k, pkg⟩ := kp
    simp only [inspectPkgs, List.flatMap_cons, List.foldl_append, List.map_cons]
    rw [inspectFiles_eq gens pkg [] pkg.Syntax st hg]
    simp only [List.nil_append]
    rw [ih]
    · rfl
    · rw [foldl_addStep_generators, hg]

/-! ## Lemmas: groups -/

theorem mapGet_mapSet_eq {κ ν : Type} [DecidableEq κ] (k : κ) (v : ν) (m : List (κ × ν)) :
    mapGet k (mapSet k v m) = some v := by
  induction m with
  | nil => simp [mapSet, mapGet]
  | cons kv m ih =>
    obtain ⟨k1, v1⟩ := kv
    by_cases h : k1 = k <;> simp [mapSet, mapGet, h, ih]

theorem mapGet_mapSet_ne {κ ν : Type} [DecidableEq κ] (k k2 : κ) (v : ν) (m : List (κ × ν))
    (hne : k ≠ k2) : mapGet k2 (mapSet k v m) = mapGet k2 m := by
  induction m with
  | nil => simp [mapSet, mapGet, hne]
  | cons kv m ih =>
    obtain ⟨k1, v1⟩ := kv
    by_cases h : k1 = k
    · subst h
      simp [mapSet, mapGet, hne]
    · by_cases h2 : k1 = k2
      · subst h2
        simp [mapSet, mapGet, h]
      · simp [mapSet, mapGet, h, h2, ih]

theorem add_error {σ : Type} (sg : SimpleGenerator σ) (m : Match σ) :
    (sg.add m.genName m.pkg m.node m.comment m.genFunc).2 = m.callError := by
  unfold SimpleGenerator.add Match.callError Match.call
  cases m.genFunc m.pkg m.node m.comment <;> rfl

theorem groupOf_add {σ : Type} (sg : SimpleGenerator σ) (m : Match σ)
    (genName : GeneratorName) (pkgPath : String) :
    groupOf (sg.add m.genName m.pkg m.node m.comment m.genFunc).1.cmdData genName pkgPath
      = if m.inGroup genName pkgPath then groupStep (groupOf sg.cmdData genName pkgPath) m
        else groupOf sg.cmdData genName pkgPath := by
  unfold SimpleGenerator.add groupStep Match.call Match.inGroup groupOf
  by_cases hg : m.genName = genName
  · subst hg
    by_cases hp : m.pkg.PkgPath = pkgPath
    · subst hp
      cases hc : m.genFunc m.pkg m.node m.comment with
      | error err =>
        cases hm : mapGet m.genName sg.cmdData <;>
          simp [hm, mapGet_mapSet_eq, mapGet]
      | ok r =>
        obtain ⟨td, raw⟩ := r
        cases hm : mapGet m.genName sg.cmdData with
        | none => simp [hm, mapGet_mapSet_eq, mapGet, mapSet]
        | some inner =>
          cases hi : mapGet m.pkg.PkgPath inner <;>
            simp [hm, hi, mapGet_mapSet_eq]
    · cases hc : m.genFunc m.pkg m.node m.comment with
      | error err =>
        cases hm : mapGet m.genName sg.cmdData <;>
          simp [hm, hp, mapGet_mapSet_eq, mapGet]
      | ok r =>
        obtain ⟨td, raw⟩ := r
        cases hm : mapGet m.genName sg.cmdData with
        | none =>
          simp [hm, hp, mapGet_mapSet_eq, mapGet, mapSet]
        | some inner =>
          cases hi : mapGet m.pkg.PkgPath inner <;>
            simp [hm, hi, hp, mapGet_mapSet_eq, mapGet_mapSet_ne]
  · cases hc : m.genFunc m.pkg m.node m.comment with
    | error err =>
      cases hm : mapGet m.genName sg.cmdData <;>
        simp [hm, hg, mapGet_mapSet_ne]
    | ok r =>
      cases hm : mapGet m.genName sg.cmdData <;>
        simp [hm, hg, mapGet_mapSet_ne]

theorem addStep_fst {σ : Type} (st : ScanState σ) (m : Match σ) :
    (addStep st m).1 = (st.1.add m.genName m.pkg m.node m.comment m.genFunc).1 := by
  unfold addStep
  generalize st.1.add m.genName m.pkg m.node m.comment m.genFunc = r
  obtain ⟨a, b⟩ := r
  cases b <;> rfl

theorem groupOf_addStep {σ : Type} (st : ScanState σ) (m : Match σ)
    (genName : GeneratorName) (pkgPath : String) :
    groupOf (addStep st m).1.cmdData genName pkgPath
      = if m.inGroup genName pkgPath then groupStep (groupOf st.1.cmdData genName pkgPath) m
        else groupOf st.1.cmdData genName pkgPath := by
  rw [← groupOf_add, addStep_fst]

theorem groupOf_foldl_addStep {σ : Type} (ms : List (Match σ)) (st : ScanState σ)
    (genName : GeneratorName) (pkgPath : String) :
    groupOf (ms.foldl addStep st).1.cmdData genName pkgPath
      = (ms.filter (Match.inGroup genName pkgPath)).foldl groupStep
          (groupOf st.1.cmdData genName pkgPath) := by
  induction ms generalizing st with
  | nil => rfl
  | cons m ms ih =>
    rw [List.foldl_cons, ih, groupOf_addStep]
    by_cases h : m.inGroup genName pkgPath = true
    · simp [h]
    · simp [h]

theorem addStep_errors {σ : Type} (st : ScanState σ) (m : Match σ) :
    (addStep st m).2 = st.2 ++ m.callError.toList := by
  have h := add_error st.1 m
  unfold addStep
  generalize st.1.add m.genName m.pkg m.node m.comment m.genFunc = r at h
  obtain ⟨a, b⟩ := r
  simp only at h
  subst h
  cases m.callError <;> simp

theorem foldl_addStep_errors {σ : Type} (ms : List (Match σ)) (st : ScanState σ) :
    (ms.foldl addStep st).2 = st.2 ++ ms.filterMap Match.callError := by
  induction ms generalizing st with
  | nil => simp
  | cons m ms ih =>
    rw [List.foldl_cons, ih, addStep_errors]
    cases h : m.callError <;> simp [List.filterMap_cons, h]

/-! ## Lemmas: `Generate` -/

theorem Generate_scan {σ : Type} (sg : SimpleGenerator σ) :
    inspectPkgs sg.pkgs (sg, [])
      = (sg.pkgs.map (fun kp => (kp.1, copyPkg kp.2)),
         (scanMatches sg).foldl addStep (sg, [])) :=
  inspectPkgs_eq sg.generators sg.pkgs (sg, []) rfl

theorem Generate_cmdData {σ : Type} (env : Env σ) (sg : SimpleGenerator σ) :
    (sg.Generate env).sg.cmdData = ((scanMatches sg).foldl addStep (sg, [])).1.cmdData := by
  unfold SimpleGenerator.Generate
  rw [Generate_scan]
  simp only
  split <;> rfl

theorem Generate_of_errors {σ : Type} (env : Env σ) (sg : SimpleGenerator σ)
    (h : (scanMatches sg).filterMap Match.callError ≠ []) :
    (sg.Generate env).result = .sgErrors ((scanMatches sg).filterMap Match.callError) ∧
    (sg.Generate env).trace = [] := by
  unfold SimpleGenerator.Generate
  rw [Generate_scan]
  simp only [foldl_addStep_errors, List.nil_append]
  have hl : ((scanMatches sg).filterMap Match.callError).length > 0 :=
    List.length_pos.mpr h
  simp [hl]

theorem Generate_of_no_errors {σ : Type} (env : Env σ) (sg : SimpleGenerator σ)
    (h : (scanMatches sg).filterMap Match.callError = []) :
    ((sg.Generate env).trace, (sg.Generate env).result) = (sg.Generate env).sg.write env := by
  unfold SimpleGenerator.Generate
  rw [Generate_scan]
  simp [foldl_addStep_errors, h]

/-- Once a group exists, no later match changes its imports. -/
theorem foldl_groupStep_imports {σ : Type} (ms : List (Match σ)) (gd : cmdData σ) :
    ∃ gd1, ms.foldl groupStep (some gd) = some gd1 ∧ gd1.Imports = gd.Imports ∧
      gd1.PackageName = gd.PackageName := by
  induction ms generalizing gd with
  | nil => exact ⟨gd, rfl, rfl, rfl⟩
  | cons m ms ih =>
    rw [List.foldl_cons]
    unfold groupStep
    cases m.call with
    | error err => exact ih gd
    | ok r =>
      obtain ⟨gd1, h1, h2, h3⟩ := ih (gd.add r.1)
      exact ⟨gd1, h1, h2, h3⟩

/-! ## Lemmas: `parseSettableStruct` -/

theorem append_if_length_pos {α : Type} (a b : List α) :
    (if b.length > 0 then a ++ b else a) = a ++ b := by
  cases b <;> simp

theorem parseFields_cons_embedded (recur : String → Option (Outcome SettableResult))
    (pkg : Package) (structName : String) (f : Field) (rest : List Field)
    (fields : List InputField) (imports : List String) (he : f.Embedded = true) :
    parseFields recur pkg structName (f :: rest) fields imports
      = match recur f.Name with
        | none => none
        | some .panics => some .panics
        | some (.returns (_, _, some tagErr)) => some (.returns (.error tagErr))
        | some (.returns (none, _, none)) => some .panics
        | some (.returns (some embedInput, embedImports, none)) =>
          parseFields recur pkg structName rest (fields ++ embedInput.Fields)
            (imports ++ embedImports) := by
  rw [parseFields]
  simp only [he, if_true, append_if_length_pos]

theorem parseFields_cons_plain (recur : String → Option (Outcome SettableResult))
    (pkg : Package) (structName : String) (f : Field) (rest : List Field)
    (fields : List InputField) (imports : List String) (he : f.Embedded = false) :
    parseFields recur pkg structName (f :: rest) fields imports
      = if parseJSONOrYamlTag f.Tag = "" then
          some (.returns (.error (.missingTag structName f.Name)))
        else
          match extractFieldInfo f.Typ pkg with
          | .panics => some .panics
          | .returns _ =>
            parseFields recur pkg structName rest
              (fields ++ if hasTypeText pkg f then [fieldDescriptor pkg f] else [])
              (imports ++ fieldImports pkg f) := by
  rw [parseFields]
  simp only [he, Bool.false_eq_true, if_false, beq_iff_eq, append_if_length_pos]
  by_cases ht : parseJSONOrYamlTag f.Tag = ""
  · simp [ht]
  · simp only [ht, if_false]
    cases hx : extractFieldInfo f.Typ pkg with
    | panics => rfl
    | returns r =>
      obtain ⟨fieldType, fieldImps⟩ := r
      by_cases hty : fieldType = ""
      · simp [hasTypeText, typeText, fieldImports, hx, hty]
      · simp [hasTypeText, typeText, fieldImports, fieldDescriptor, hx, hty]

theorem parseFields_append (recur : String → Option (Outcome SettableResult))
    (pkg : Package) (structName : String) (xs ys : List Field)
    (fields : List InputField) (imports : List String) :
    parseFields recur pkg structName (xs ++ ys) fields imports
      = match parseFields recur pkg structName xs fields imports with
        | none => none
        | some .panics => some .panics
        | some (.returns (.error err)) => some (.returns (.error err))
        | some (.returns (.ok r)) => parseFields recur pkg structName ys r.1 r.2 := by
  induction xs generalizing fields imports with
  | nil => simp [parseFields]
  | cons f xs ih =>
    rw [List.cons_append]
    by_cases he : f.Embedded = true
    · rw [parseFields_cons_embedded _ _ _ _ _ _ _ he, parseFields_cons_embedded _ _ _ _ _ _ _ he]
      rcases recur f.Name with _ | ⟨⟨_ | embedInput, embedImports, _ | e⟩⟩ | _
      · rfl
      · rfl
      · rfl
      · exact ih _ _
      · rfl
      · rfl
    · have he2 : f.Embedded = false := by simpa using he
      rw [parseFields_cons_plain _ _ _ _ _ _ _ he2, parseFields_cons_plain _ _ _ _ _ _ _ he2]
      by_cases ht : parseJSONOrYamlTag f.Tag = ""
      · simp [ht]
      · simp only [ht, if_false]
        cases extractFieldInfo f.Typ pkg with
        | panics => rfl
        | returns r => exact ih _ _

theorem parseFields_acc (recur : String → Option (Outcome SettableResult))
    (pkg : Package) (structName : String) (xs : List Field)
    (fields : List InputField) (imports : List String) :
    parseFields recur pkg structName xs fields imports
      = match parseFields recur pkg structName xs [] [] with
        | none => none
        | some .panics => some .panics
        | some (.returns (.error err)) => some (.returns (.error err))
        | some (.returns (.ok r)) => some (.returns (.ok (fields ++ r.1, imports ++ r.2))) := by
  induction xs generalizing fields imports with
  | nil => simp [parseFields]
  | cons f xs ih =>
    by_cases he : f.Embedded = true
    · rw [parseFields_cons_embedded _ _ _ _ _ _ _ he, parseFields_cons_embedded _ _ _ _ _ _ _ he]
      rcases recur f.Name with _ | ⟨⟨_ | embedInput, embedImports, _ | e⟩⟩ | _
      · rfl
      · rfl
      · rfl
      · simp only [List.nil_append]
        rw [ih (fields ++ embedInput.Fields), ih embedInput.Fields]
        rcases parseFields recur pkg structName xs [] [] with _ | ⟨⟨e | r⟩⟩ | _ <;>
          simp [List.append_assoc]
      · rfl
      · rfl
    · have he2 : f.Embedded = false := by simpa using he
      rw [parseFields_cons_plain _ _ _ _ _ _ _ he2, parseFields_cons_plain _ _ _ _ _ _ _ he2]
      by_cases ht : parseJSONOrYamlTag f.Tag = ""
      · simp [ht]
      · simp only [ht, if_false, List.nil_append]
        cases extractFieldInfo f.Typ pkg with
        | panics => rfl
        | returns r0 =>
          simp only
          rw [ih (fields ++ _),
            ih (if hasTypeText pkg f = true then [fieldDescriptor pkg f] else [])]
          rcases parseFields recur pkg structName xs [] [] with _ | ⟨⟨e | r⟩⟩ | _ <;>
            simp [List.append_assoc]

theorem parseFields_mono (recur recur2 : String → Option (Outcome SettableResult))
    (hrec : ∀ name r, recur name = some r → recur2 name = some r)
    (pkg : Package) (structName : String) (xs : List Field)
    (fields : List InputField) (imports : List String)
    (r : Outcome (Except GoError (List InputField × List String)))
    (h : parseFields recur pkg structName xs fields imports = some r) :
    parseFields recur2 pkg structName xs fields imports = some r := by
  induction xs generalizing fields imports with
  | nil => simpa [parseFields] using h
  | cons f xs ih =>
    by_cases he : f.Embedded = true
    · rw [parseFields_cons_embedded _ _ _ _ _ _ _ he] at h ⊢
      cases hr : recur f.Name with
      | none => simp [hr] at h
      | some v =>
        rw [hrec _ _ hr]
        rw [hr] at h
        rcases v with ⟨_ | embedInput, embedImports, _ | e⟩ | _
        · exact h
        · exact h
        · exact ih _ _ h
        · exact h
        · exact h
    · have he2 : f.Embedded = false := by simpa using he
      rw [parseFields_cons_plain _ _ _ _ _ _ _ he2] at h ⊢
      by_cases ht : parseJSONOrYamlTag f.Tag = ""
      · simpa [ht] using h
      · simp only [ht, if_false] at h ⊢
        cases hx : extractFieldInfo f.Typ pkg with
        | panics =>
          rw [hx] at h
          exact h
        | returns r0 =>
          rw [hx] at h
          exact ih _ _ h

theorem parseSettableStruct_mono (fuel : Nat) (pkg : Package) :
    ∀ (structName : String) (r : Outcome SettableResult),
      parseSettableStruct fuel pkg structName = some r →
      parseSettableStruct (fuel + 1) pkg structName = some r := by
  induction fuel with
  | zero =>
    intro structName r h
    simp [parseSettableStruct] at h
  | succ n ih =>
    intro structName r h
    rw [parseSettableStruct] at h ⊢
    cases hst : GetStructType pkg structName with
    | error err => simpa [hst] using h
    | ok st =>
      simp only [hst] at h ⊢
      cases hp : parseFields (parseSettableStruct n pkg) pkg structName st.Fields [] [] with
      | none => simp [hp] at h
      | some v =>
        rw [parseFields_mono _ _ ih pkg structName st.Fields [] [] v hp]
        simpa [hp] using h

theorem parseSettableStruct_mono_le (pkg : Package) (structName : String)
    (r : Outcome SettableResult)
    (n m : Nat) (hnm : n ≤ m) (h : parseSettableStruct n pkg structName = some r) :
    parseSettableStruct m pkg structName = some r := by
  induction hnm with
  | refl => exact h
  | step _ ih => exact parseSettableStruct_mono _ pkg structName r ih

theorem parseFields_plain_returns (recur : String → Option (Outcome SettableResult))
    (pkg : Package) (structName : String) (fs : List Field)
    (fields : List InputField) (imports : List String)
    (res : List InputField × List String)
    (hemb : ∀ f ∈ fs, f.Embedded = false)
    (h : parseFields recur pkg structName fs fields imports = some (.returns (.ok res))) :
    res.1 = fields ++ (fs.filter (hasTypeText pkg)).map (fieldDescriptor pkg) ∧
    res.2 = imports ++ fs.flatMap (fieldImports pkg) ∧
    (∀ f ∈ fs, parseJSONOrYamlTag f.Tag ≠ "") ∧
    (∀ f ∈ fs, extractFieldInfo f.Typ pkg ≠ .panics) := by
  induction fs generalizing fields imports with
  | nil =>
    simp only [parseFields, Option.some.injEq, Outcome.returns.injEq, Except.ok.injEq] at h
    subst h
    simp
  | cons f fs ih =>
    have he : f.Embedded = false := hemb f (List.mem_cons_self _ _)
    have hemb2 : ∀ g ∈ fs, g.Embedded = false := fun g hg => hemb g (List.mem_cons_of_mem _ hg)
    rw [parseFields_cons_plain _ _ _ _ _ _ _ he] at h
    by_cases ht : parseJSONOrYamlTag f.Tag = ""
    · simp [ht] at h
    · simp only [ht, if_false] at h
      cases hx : extractFieldInfo f.Typ pkg with
      | panics => simp [hx] at h
      | returns r0 =>
        simp only [hx] at h
        obtain ⟨h1, h2, h3, h4⟩ := ih _ _ hemb2 h
        refine ⟨?_, ?_, ?_, ?_⟩
        · rw [h1]
          by_cases hty : hasTypeText pkg f = true
          · simp [hty, List.filter_cons]
          · simp [hty, List.filter_cons]
        · rw [h2]
          simp [List.flatMap_cons, List.append_assoc]
        · intro g hg
          rcases List.mem_cons.mp hg with rfl | hg2
          · exact ht
          · exact h3 g hg2
        · intro g hg
          rcases List.mem_cons.mp hg with rfl | hg2
          · rw [hx]
            exact fun e => Outcome.noConfusion e
          · exact h4 g hg2

theorem parseFields_plain_ok (recur : String → Option (Outcome SettableResult))
    (pkg : Package) (structName : String) (fs : List Field)
    (fields : List InputField) (imports : List String)
    (hemb : ∀ f ∈ fs, f.Embedded = false)
    (htag : ∀ f ∈ fs, parseJSONOrYamlTag f.Tag ≠ "")
    (hnp : ∀ f ∈ fs, extractFieldInfo f.Typ pkg ≠ .panics) :
    parseFields recur pkg structName fs fields imports
      = some (.returns (.ok (fields ++ (fs.filter (hasTypeText pkg)).map (fieldDescriptor pkg),
                             imports ++ fs.flatMap (fieldImports pkg)))) := by
  induction fs generalizing fields imports with
  | nil => simp [parseFields]
  | cons f fs ih =>
    have he : f.Embedded = false := hemb f (List.mem_cons_self _ _)
    have ht : parseJSONOrYamlTag f.Tag ≠ "" := htag f (List.mem_cons_self _ _)
    have hp : extractFieldInfo f.Typ pkg ≠ .panics := hnp f (List.mem_cons_self _ _)
    rw [parseFields_cons_plain _ _ _ _ _ _ _ he]
    simp only [ht, if_false]
    cases hx : extractFieldInfo f.Typ pkg with
    | panics => exact absurd hx hp
    | returns r0 =>
      simp only
      rw [ih _ _ (fun g hg => hemb g (List.mem_cons_of_mem _ hg))
        (fun g hg => htag g (List.mem_cons_of_mem _ hg))
        (fun g hg => hnp g (List.mem_cons_of_mem _ hg))]
      by_cases hty : hasTypeText pkg f = true
      · simp [hty, List.filter_cons, List.flatMap_cons, List.append_assoc]
      · simp [hty, List.filter_cons, List.flatMap_cons, List.append_assoc]

theorem parseFields_plain_error (recur : String → Option (Outcome SettableResult))
    (pkg : Package) (structName : String) (fs : List Field)
    (fields : List InputField) (imports : List String)
    (hemb : ∀ f ∈ fs, f.Embedded = false)
    (hnp : ∀ f ∈ fs, extractFieldInfo f.Typ pkg ≠ .panics)
    (htag : ∃ f ∈ fs, parseJSONOrYamlTag f.Tag = "") :
    ∃ err, parseFields recur pkg structName fs fields imports = some (.returns (.error err)) := by
  induction fs generalizing fields imports with
  | nil =>
    obtain ⟨f, hf, _⟩ := htag
    cases hf
  | cons f fs ih =>
    have he : f.Embedded = false := hemb f (List.mem_cons_self _ _)
    have hp : extractFieldInfo f.Typ pkg ≠ .panics := hnp f (List.mem_cons_self _ _)
    rw [parseFields_cons_plain _ _ _ _ _ _ _ he]
    by_cases ht : parseJSONOrYamlTag f.Tag = ""
    · exact ⟨.missingTag structName f.Name, by simp [ht]⟩
    · have htag2 : ∃ g ∈ fs, parseJSONOrYamlTag g.Tag = "" := by
        obtain ⟨g, hg, hgt⟩ := htag
        rcases List.mem_cons.mp hg with rfl | hg2
        · exact absurd hgt ht
        · exact ⟨g, hg2, hgt⟩
      simp only [ht, if_false]
      cases hx : extractFieldInfo f.Typ pkg with
      | panics => exact absurd hx hp
      | returns r0 =>
        exact ih _ _ (fun g hg => hemb g (List.mem_cons_of_mem _ hg))
          (fun g hg => hnp g (List.mem_cons_of_mem _ hg)) htag2

theorem parseFields_plain_panics (recur : String → Option (Outcome SettableResult))
    (pkg : Package) (structName : String) (fs : List Field)
    (fields : List InputField) (imports : List String)
    (hemb : ∀ f ∈ fs, f.Embedded = false)
    (htag : ∀ f ∈ fs, parseJSONOrYamlTag f.Tag ≠ "")
    (hp : ∃ f ∈ fs, extractFieldInfo f.Typ pkg = .panics) :
    parseFields recur pkg structName fs fields imports = some .panics := by
  induction fs generalizing fields imports with
  | nil =>
    obtain ⟨f, hf, _⟩ := hp
    cases hf
  | cons f fs ih =>
    have he : f.Embedded = false := hemb f (List.mem_cons_self _ _)
    have ht : parseJSONOrYamlTag f.Tag ≠ "" := htag f (List.mem_cons_self _ _)
    rw [parseFields_cons_plain _ _ _ _ _ _ _ he]
    simp only [ht, if_false]
    cases hx : extractFieldInfo f.Typ pkg with
    | panics => rfl
    | returns r0 =>
      have hp2 : ∃ g ∈ fs, extractFieldInfo g.Typ pkg = .panics := by
        obtain ⟨g, hg, hgp⟩ := hp
        rcases List.mem_cons.mp hg with rfl | hg2
        · rw [hx] at hgp
          cases hgp
        · exact ⟨g, hg2, hgp⟩
      exact ih _ _ (fun g hg => hemb g (List.mem_cons_of_mem _ hg))
        (fun g hg => htag g (List.mem_cons_of_mem _ hg)) hp2

theorem parseSettableStruct_plain_ok (fuel : Nat) (pkg : Package) (structName : String)
    (st : StructType) (hst : GetStructType pkg structName = .ok st)
    (hemb : ∀ f ∈ st.Fields, f.Embedded = false)
    (htag : ∀ f ∈ st.Fields, parseJSONOrYamlTag f.Tag ≠ "")
    (hnp : ∀ f ∈ st.Fields, extractFieldInfo f.Typ pkg ≠ .panics) :
    parseSettableStruct (fuel + 1) pkg structName
      = some (.returns (some { Name := structName,
                               Fields := (st.Fields.filter (hasTypeText pkg)).map
                                 (fieldDescriptor pkg) },
              st.Fields.flatMap (fieldImports pkg), none)) := by
  unfold parseSettableStruct
  rw [hst]
  simp only
  rw [parseFields_plain_ok _ pkg structName st.Fields [] [] hemb htag hnp]
  simp

theorem parseSettableStruct_plain_error (fuel : Nat) (pkg : Package) (structName : String)
    (st : StructType) (hst : GetStructType pkg structName = .ok st)
    (hemb : ∀ f ∈ st.Fields, f.Embedded = false)
    (hnp : ∀ f ∈ st.Fields, extractFieldInfo f.Typ pkg ≠ .panics)
    (htag : ∃ f ∈ st.Fields, parseJSONOrYamlTag f.Tag = "") :
    ∃ err, parseSettableStruct (fuel + 1) pkg structName
      = some (.returns (none, [], some err)) := by
  obtain ⟨err, herr⟩ :=
    parseFields_plain_error (parseSettableStruct fuel pkg) pkg structName st.Fields [] []
      hemb hnp htag
  refine ⟨err, ?_⟩
  unfold parseSettableStruct
  rw [hst]
  simp only
  rw [herr]

theorem parseSettableStruct_plain_panics (fuel : Nat) (pkg : Package) (structName : String)
    (st : StructType) (hst : GetStructType pkg structName = .ok st)
    (hemb : ∀ f ∈ st.Fields, f.Embedded = false)
    (htag : ∀ f ∈ st.Fields, parseJSONOrYamlTag f.Tag ≠ "")
    (hp : ∃ f ∈ st.Fields, extractFieldInfo f.Typ pkg = .panics) :
    parseSettableStruct (fuel + 1) pkg structName = some .panics := by
  unfold parseSettableStruct
  rw [hst]
  simp only
  rw [parseFields_plain_panics _ pkg structName st.Fields [] [] hemb htag hp]

theorem fieldDescriptor_key_ne (pkg : Package) (fs : List Field)
    (htag : ∀ f ∈ fs, parseJSONOrYamlTag f.Tag ≠ "") :
    ∀ d ∈ (fs.filter (hasTypeText pkg)).map (fieldDescriptor pkg), d.JSONTag ≠ "" := by
  intro d hd
  obtain ⟨f, hf, rfl⟩ := List.mem_map.mp hd
  exact htag f (List.mem_filter.mp hf).1

theorem parseSettableStruct_plain_iff (fuel : Nat) (pkg : Package)
    (structName : String) (st : StructType)
    (hst : GetStructType pkg structName = .ok st)
    (hemb : ∀ f ∈ st.Fields, f.Embedded = false)
    (hnp : ∀ f ∈ st.Fields, extractFieldInfo f.Typ pkg ≠ .panics) :
    ((∃ err, parseSettableStruct (fuel + 1) pkg structName
        = some (.returns (none, [], some err)))
      ↔ ∃ f ∈ st.Fields, parseJSONOrYamlTag f.Tag = "") ∧
    ((∃ spec imports,
        parseSettableStruct (fuel + 1) pkg structName
          = some (.returns (some spec, imports, none)) ∧
        ∀ d ∈ spec.Fields, d.JSONTag ≠ "")
      ↔ ¬ ∃ f ∈ st.Fields, parseJSONOrYamlTag f.Tag = "") ∧
    (∀ spec imports err,
      parseSettableStruct (fuel + 1) pkg structName
          = some (.returns (spec, imports, some err)) →
        spec = none ∧ imports = []) := by
  by_cases htag : ∃ f ∈ st.Fields, parseJSONOrYamlTag f.Tag = ""
  · obtain ⟨err, herr⟩ :=
      parseSettableStruct_plain_error fuel pkg structName st hst hemb hnp htag
    refine ⟨⟨fun _ => htag, fun _ => ⟨err, herr⟩⟩, ⟨?_, fun h => absurd htag h⟩, ?_⟩
    · rintro ⟨spec, imports, h, _⟩
      rw [herr] at h
      simp at h
    · intro spec imports err2 h
      rw [herr] at h
      simp only [Option.some.injEq, Outcome.returns.injEq, Prod.mk.injEq] at h
      exact ⟨h.1.symm, h.2.1.symm⟩
  · have htag2 : ∀ f ∈ st.Fields, parseJSONOrYamlTag f.Tag ≠ "" := by
      intro f hf h
      exact htag ⟨f, hf, h⟩
    have hok := parseSettableStruct_plain_ok fuel pkg structName st hst hemb htag2 hnp
    refine ⟨⟨?_, fun h => absurd h htag⟩, ⟨fun _ => htag, fun _ => ?_⟩, ?_⟩
    · rintro ⟨err, h⟩
      rw [hok] at h
      simp at h
    · exact ⟨_, _, hok, fieldDescriptor_key_ne pkg st.Fields htag2⟩
    · intro spec imports err2 h
      rw [hok] at h
      simp at h

theorem extractFieldInfo_universe_panics (name : String) (pkg : Package) :
    extractFieldInfo (.Named none name) pkg = .panics ∧
    extractFieldInfo (.Pointer (.Named none name)) pkg = .panics := by
  exact ⟨rfl, rfl⟩

/-! ## Lemmas: maps with unique keys -/

theorem length_le_one_of_nodup_key {α κ : Type} (key : α → κ) (k : κ) (l : List α)
    (hnd : (l.map key).Nodup) (hk : ∀ x ∈ l, key x = k) : l.length ≤ 1 := by
  match l, hnd, hk with
  | [], _, _ => simp
  | [_], _, _ => simp
  | a :: b :: l, hnd, hk =>
    exfalso
    have ha : key a = k := hk a (by simp)
    have hb : key b = k := hk b (by simp)
    simp only [List.map_cons, List.nodup_cons, List.mem_cons, not_or] at hnd
    exact hnd.1.1 (ha.trans hb.symm)

theorem filter_key_length_le_one {α κ : Type} [DecidableEq κ] (key : α → κ) (k : κ)
    (l : List α) (hnd : (l.map key).Nodup) :
    (l.filter (fun x => decide (key x = k))).length ≤ 1 := by
  apply length_le_one_of_nodup_key key k
  · exact (List.Sublist.map key (List.filter_sublist l)).nodup hnd
  · intro x hx
    simpa using (List.mem_filter.mp hx).2

theorem filter_key_eq_of_perm {α κ : Type} [DecidableEq κ] (key : α → κ) (k : κ)
    (l l2 : List α) (hp : l.Perm l2) (hnd : (l.map key).Nodup) :
    l.filter (fun x => decide (key x = k)) = l2.filter (fun x => decide (key x = k)) := by
  have hperm := hp.filter (fun x => decide (key x = k))
  have hlen := filter_key_length_le_one key k l hnd
  match h : l.filter (fun x => decide (key x = k)), hlen with
  | [], _ =>
    rw [h] at hperm
    exact (List.nil_perm.mp hperm).symm
  | [a], _ =>
    rw [h] at hperm
    exact List.singleton_perm.mp hperm
  | _ :: _ :: _, hl =>
    rw [h] at hlen
    simp at hlen

theorem filter_key_of_mem {α κ : Type} [DecidableEq κ] (key : α → κ) (l : List α) (x : α)
    (hx : x ∈ l) (hnd : (l.map key).Nodup) :
    l.filter (fun y => decide (key y = key x)) = [x] := by
  have hlen := filter_key_length_le_one key (key x) l hnd
  have hmem : x ∈ l.filter (fun y => decide (key y = key x)) :=
    List.mem_filter.mpr ⟨hx, by simp⟩
  match h : l.filter (fun y => decide (key y = key x)), hlen with
  | [], _ => rw [h] at hmem; cases hmem
  | [a], _ =>
    rw [h] at hmem
    rw [List.mem_singleton.mp hmem]
  | _ :: _ :: _, hl =>
    rw [h] at hlen
    simp at hlen

theorem filter_key_of_not_mem {α κ : Type} [DecidableEq κ] (key : α → κ) (k : κ) (l : List α)
    (hk : k ∉ l.map key) : l.filter (fun y => decide (key y = k)) = [] := by
  rw [List.filter_eq_nil_iff]
  intro x hx h
  exact hk (List.mem_map.mpr ⟨x, hx, by simpa using h⟩)

theorem mapGet_eq_filter {κ ν : Type} [DecidableEq κ] (k : κ) (m : List (κ × ν)) :
    mapGet k m = ((m.filter (fun kv => decide (kv.1 = k))).head?).map Prod.snd := by
  induction m with
  | nil => rfl
  | cons kv m ih =>
    obtain ⟨k1, v1⟩ := kv
    by_cases h : k1 = k
    · simp [mapGet, h]
    · simp [mapGet, h, ih]

/-! ## Lemmas: the matches of a group -/

theorem commentMatches_filter {σ : Type} (gens : GeneratorsMap σ) (pkg : Package)
    (node : TypeSpec) (comment : Comment) (genName : GeneratorName) (pkgPath : String) :
    (commentMatches gens pkg node comment).filter (Match.inGroup genName pkgPath)
      = if pkg.PkgPath = pkgPath ∧ stringsContains comment.Text CmdKey = true then
          ((gens.filter (fun g => decide (g.1 = genName))).filter
            (fun g => stringsContains comment.Text g.1)).map
            (fun g => { genName := g.1, pkg := pkg, node := node, comment := comment,
                        genFunc := g.2.GeneratorFunc })
        else [] := by
  unfold commentMatches
  by_cases hk : stringsContains comment.Text CmdKey = true
  · by_cases hp : pkg.PkgPath = pkgPath
    · simp only [hk, hp, if_true, and_self, List.filter_map, List.filter_filter]
      congr 1
      apply List.filter_congr
      intro g _
      simp [Match.inGroup, hp, Bool.and_comm]
    · simp only [hk, hp, if_true, false_and, if_false]
      rw [List.filter_eq_nil_iff]
      intro m hm
      obtain ⟨g, _, rfl⟩ := List.mem_map.mp hm
      simp [Match.inGroup, hp]
  · simp [hk]

theorem typeSpecMatches_eq {σ : Type} (gens : GeneratorsMap σ) (pkg : Package)
    (node : TypeSpec) :
    typeSpecMatches gens pkg node = (node.Doc.getD []).flatMap (commentMatches gens pkg node) := by
  unfold typeSpecMatches
  cases node.Doc <;> rfl

theorem typeSpecMatches_filter_registered {σ : Type} (gens : GeneratorsMap σ) (pkg : Package)
    (node : TypeSpec) (d : GeneratorName) (tg : TemplateGenerator σ)
    (hnd : (gens.map Prod.fst).Nodup) (hd : (d, tg) ∈ gens) :
    (typeSpecMatches gens pkg node).filter (Match.inGroup d pkg.PkgPath)
      = ((node.Doc.getD []).filter
          (fun c => stringsContains c.Text CmdKey && stringsContains c.Text d)).map
          (fun c => { genName := d, pkg := pkg, node := node, comment := c,
                      genFunc := tg.GeneratorFunc }) := by
  rw [typeSpecMatches_eq, List.filter_flatMap]
  have hf : gens.filter (fun g => decide (g.1 = d)) = [(d, tg)] :=
    filter_key_of_mem Prod.fst gens (d, tg) hd hnd
  induction node.Doc.getD [] with
  | nil => rfl
  | cons c doc ih =>
    rw [List.flatMap_cons, ih, commentMatches_filter, hf]
    by_cases hk : stringsContains c.Text CmdKey = true
    · by_cases hc : stringsContains c.Text d = true
      · simp [hk, hc]
      · simp [hk, hc]
    · simp [hk]

theorem typeSpecMatches_filter_other {σ : Type} (gens : GeneratorsMap σ) (pkg : Package)
    (node : TypeSpec) (d : GeneratorName) (p : String)
    (h : p ≠ pkg.PkgPath ∨ d ∉ gens.map Prod.fst) :
    (typeSpecMatches gens pkg node).filter (Match.inGroup d p) = [] := by
  rw [typeSpecMatches_eq, List.filter_flatMap]
  induction node.Doc.getD [] with
  | nil => rfl
  | cons c doc ih =>
    rw [List.flatMap_cons, ih, commentMatches_filter]
    rcases h with hp | hd
    · have hp2 : ¬ pkg.PkgPath = p := fun e => hp e.symm
      simp [hp2]
    · rw [filter_key_of_not_mem Prod.fst d gens hd]
      simp

/-! ## Lemmas: the matches of a group do not depend on the iteration order -/

theorem typeSpecMatches_filter_congr {σ : Type} (gens gens2 : GeneratorsMap σ)
    (q : Match σ → Bool)
    (hleaf : ∀ pkg node c, (commentMatches gens pkg node c).filter q
      = (commentMatches gens2 pkg node c).filter q)
    (pkg : Package) (node : TypeSpec) :
    (typeSpecMatches gens pkg node).filter q = (typeSpecMatches gens2 pkg node).filter q := by
  rw [typeSpecMatches_eq, typeSpecMatches_eq, List.filter_flatMap, List.filter_flatMap]
  induction node.Doc.getD [] with
  | nil => rfl
  | cons c doc ih => rw [List.flatMap_cons, List.flatMap_cons, ih, hleaf]

theorem specsMatches_filter_congr {σ : Type} (gens gens2 : GeneratorsMap σ)
    (q : Match σ → Bool)
    (hleaf : ∀ pkg node c, (commentMatches gens pkg node c).filter q
      = (commentMatches gens2 pkg node c).filter q)
    (pkg : Package) (specs : List Spec) :
    (specs.flatMap (specMatches gens pkg)).filter q
      = (specs.flatMap (specMatches gens2 pkg)).filter q := by
  induction specs with
  | nil => rfl
  | cons spec specs ih =>
    rw [List.flatMap_cons, List.flatMap_cons, List.filter_append, List.filter_append, ih]
    cases spec with
    | typeSpec node =>
      simp only [specMatches]
      rw [typeSpecMatches_filter_congr gens gens2 q hleaf]
    | otherSpec => rfl

theorem declsMatches_filter_congr {σ : Type} (gens gens2 : GeneratorsMap σ)
    (q : Match σ → Bool)
    (hleaf : ∀ pkg node c, (commentMatches gens pkg node c).filter q
      = (commentMatches gens2 pkg node c).filter q)
    (mk : List GenDecl → Package) (done rest : List GenDecl) :
    (declsMatches gens mk done rest).filter q = (declsMatches gens2 mk done rest).filter q := by
  induction rest generalizing done with
  | nil => rfl
  | cons x rest ih =>
    simp only [declsMatches, List.filter_append]
    rw [specsMatches_filter_congr gens gens2 q hleaf, ih]

theorem filesMatches_filter_congr {σ : Type} (gens gens2 : GeneratorsMap σ)
    (q : Match σ → Bool)
    (hleaf : ∀ pkg node c, (commentMatches gens pkg node c).filter q
      = (commentMatches gens2 pkg node c).filter q)
    (pkg : Package) (done rest : List File) :
    (filesMatches gens pkg done rest).filter q = (filesMatches gens2 pkg done rest).filter q := by
  induction rest generalizing done with
  | nil => rfl
  | cons f rest ih =>
    simp only [filesMatches, List.filter_append]
    rw [declsMatches_filter_congr gens gens2 q hleaf, ih]

theorem commentMatches_pkg {σ : Type} (gens : GeneratorsMap σ) (pkg : Package)
    (node : TypeSpec) (c : Comment) :
    ∀ m ∈ commentMatches gens pkg node c, m.pkg = pkg := by
  intro m hm
  unfold commentMatches at hm
  split at hm
  · obtain ⟨g, _, rfl⟩ := List.mem_map.mp hm
    rfl
  · cases hm

theorem specsMatches_pkg {σ : Type} (gens : GeneratorsMap σ) (pkg : Package)
    (specs : List Spec) :
    ∀ m ∈ specs.flatMap (specMatches gens pkg), m.pkg = pkg := by
  intro m hm
  obtain ⟨spec, _, hm2⟩ := List.mem_flatMap.mp hm
  cases spec with
  | typeSpec node =>
    simp only [specMatches] at hm2
    rw [typeSpecMatches_eq] at hm2
    obtain ⟨c, _, hm3⟩ := List.mem_flatMap.mp hm2
    exact commentMatches_pkg gens pkg node c m hm3
  | otherSpec => cases hm2

theorem declsMatches_pkgPath {σ : Type} (gens : GeneratorsMap σ)
    (mk : List GenDecl → Package) (path : String) (hmk : ∀ ds, (mk ds).PkgPath = path)
    (done rest : List GenDecl) :
    ∀ m ∈ declsMatches gens mk done rest, m.pkg.PkgPath = path := by
  induction rest generalizing done with
  | nil =>
    intro m hm
    cases hm
  | cons x rest ih =>
    intro m hm
    simp only [declsMatches, List.mem_append] at hm
    rcases hm with hm | hm
    · rw [specsMatches_pkg gens _ _ m hm]
      exact hmk _
    · exact ih _ m hm

theorem filesMatches_pkgPath {σ : Type} (gens : GeneratorsMap σ) (pkg : Package)
    (done rest : List File) :
    ∀ m ∈ filesMatches gens pkg done rest, m.pkg.PkgPath = pkg.PkgPath := by
  induction rest generalizing done with
  | nil =>
    intro m hm
    cases hm
  | cons f rest ih =>
    intro m hm
    simp only [filesMatches, List.mem_append] at hm
    rcases hm with hm | hm
    · exact declsMatches_pkgPath gens
        (fun ds => { pkg with Syntax := done ++ ds :: rest }) pkg.PkgPath (fun _ => rfl) [] f m hm
    · exact ih _ m hm

theorem pkgMatches_filter_other {σ : Type} (gens : GeneratorsMap σ) (pkg : Package)
    (d : GeneratorName) (p : String) (hp : pkg.PkgPath ≠ p) :
    (pkgMatches gens pkg).filter (Match.inGroup d p) = [] := by
  rw [List.filter_eq_nil_iff]
  intro m hm h
  have hpath := filesMatches_pkgPath gens pkg [] pkg.Syntax m hm
  simp only [Match.inGroup, decide_eq_true_eq] at h
  exact hp (hpath.symm.trans h.2)

theorem scanMatches_filter {σ : Type} (pkgs : List (String × Package))
    (gens : GeneratorsMap σ) (d : GeneratorName) (p : String) :
    (pkgs.flatMap (fun kp => pkgMatches gens kp.2)).filter (Match.inGroup d p)
      = (pkgs.filter (fun kp => decide (kp.2.PkgPath = p))).flatMap
          (fun kp => (pkgMatches gens kp.2).filter (Match.inGroup d p)) := by
  induction pkgs with
  | nil => rfl
  | cons kp pkgs ih =>
    rw [List.flatMap_cons, List.filter_append, ih]
    by_cases hp : kp.2.PkgPath = p
    · rw [List.filter_cons_of_pos (by simpa using hp), List.flatMap_cons]
    · rw [List.filter_cons_of_neg (by simpa using hp), pkgMatches_filter_other gens kp.2 d p hp]
      rfl

theorem commentMatches_filter_perm {σ : Type} (gens gens2 : GeneratorsMap σ)
    (hg : gens.Perm gens2) (hnd : (gens.map Prod.fst).Nodup)
    (d : GeneratorName) (p : String) (pkg : Package) (node : TypeSpec) (c : Comment) :
    (commentMatches gens pkg node c).filter (Match.inGroup d p)
      = (commentMatches gens2 pkg node c).filter (Match.inGroup d p) := by
  rw [commentMatches_filter, commentMatches_filter,
    filter_key_eq_of_perm Prod.fst d gens gens2 hg hnd]

theorem scanMatches_filter_perm {σ : Type} (sg sg2 : SimpleGenerator σ)
    (hpk : (sg.pkgs.map (fun kp => kp.2.PkgPath)).Nodup)
    (hgn : (sg.generators.map Prod.fst).Nodup)
    (hp : sg.pkgs.Perm sg2.pkgs) (hg : sg.generators.Perm sg2.generators)
    (d : GeneratorName) (p : String) :
    (scanMatches sg).filter (Match.inGroup d p) = (scanMatches sg2).filter (Match.inGroup d p) := by
  unfold scanMatches
  rw [scanMatches_filter, scanMatches_filter,
    filter_key_eq_of_perm (fun kp : String × Package => kp.2.PkgPath) p sg.pkgs sg2.pkgs hp hpk]
  congr 1
  funext kp
  exact filesMatches_filter_congr sg.generators sg2.generators _
    (commentMatches_filter_perm sg.generators sg2.generators hg hgn d p) kp.2 [] kp.2.Syntax

theorem Generate_generators {σ : Type} (env : Env σ) (sg : SimpleGenerator σ) :
    (sg.Generate env).sg.generators = sg.generators := by
  unfold SimpleGenerator.Generate
  rw [Generate_scan]
  simp only
  split <;> exact foldl_addStep_generators _ _

/-! ## Lemmas: the target path of `write` -/

theorem takeWhile_ne_append (sep : Char) (seg rel : List Char) (h : sep ∉ seg) :
    (seg ++ sep :: rel).takeWhile (fun c => c != sep) = seg := by
  induction seg with
  | nil => simp [List.takeWhile]
  | cons a seg ih =>
    have ha : (a != sep) = true := by
      simp only [bne_iff_ne, ne_eq]
      exact fun e => h (by simp [e])
    have hs : sep ∉ seg := fun e => h (List.mem_cons_of_mem _ e)
    rw [List.cons_append, List.takeWhile_cons]
    simp only [ha, if_true]
    rw [ih hs]

theorem dropWhile_ne_append (sep : Char) (seg rel : List Char) (h : sep ∉ seg) :
    (seg ++ sep :: rel).dropWhile (fun c => c != sep) = sep :: rel := by
  induction seg with
  | nil => simp [List.dropWhile]
  | cons a seg ih =>
    have ha : (a != sep) = true := by
      simp only [bne_iff_ne, ne_eq]
      exact fun e => h (by simp [e])
    have hs : sep ∉ seg := fun e => h (List.mem_cons_of_mem _ e)
    rw [List.cons_append, List.dropWhile_cons]
    simp only [ha, if_true]
    rw [ih hs]

theorem dropWhile_ne_of_not_mem (sep : Char) (s : List Char) (h : sep ∉ s) :
    s.dropWhile (fun c => c != sep) = [] := by
  induction s with
  | nil => rfl
  | cons a s ih =>
    have ha : (a != sep) = true := by
      simp only [bne_iff_ne, ne_eq]
      exact fun e => h (by simp [e])
    have hs : sep ∉ s := fun e => h (List.mem_cons_of_mem _ e)
    rw [List.dropWhile_cons]
    simp only [ha, if_true]
    rw [ih hs]

theorem stringsSplitN2_of_sep (sep : Char) (seg rel : List Char) (h : sep ∉ seg) :
    stringsSplitN2 (String.mk (seg ++ sep :: rel)) sep = [String.mk seg, String.mk rel] := by
  unfold stringsSplitN2
  simp only [takeWhile_ne_append sep seg rel h, dropWhile_ne_append sep seg rel h]

theorem stringsSplitN2_of_no_sep (sep : Char) (s : String) (h : sep ∉ s.data) :
    stringsSplitN2 s sep = [s] := by
  unfold stringsSplitN2
  simp only [dropWhile_ne_of_not_mem sep s.data h]

theorem writePkgs_target {σ : Type} (env : Env σ) (genName : GeneratorName)
    (templateRaw : String) (seg rel : List Char) (specs : cmdData σ)
    (rest : List (String × cmdData σ)) (st : List Event × List GoError)
    (buf content : String) (hseg : '/' ∉ seg)
    (hexec : env.templateExecute templateRaw specs = .ok buf)
    (hfmt : env.formatSource buf = .ok content) :
    writePkgs env genName templateRaw ((String.mk (seg ++ '/' :: rel), specs) :: rest) st
      = writePkgs env genName templateRaw rest
          (st.1 ++ [.execute genName (String.mk (seg ++ '/' :: rel))]
              ++ (writeFile env (String.mk rel ++ ("/" ++ genName ++ "_gen.go")) content).1,
           match (writeFile env (String.mk rel ++ ("/" ++ genName ++ "_gen.go")) content).2 with
           | some err => st.2 ++ [err]
           | none => st.2) := by
  obtain ⟨trace, errors⟩ := st
  rw [writePkgs]
  simp only [hexec, hfmt, stringsSplitN2_of_sep '/' seg rel hseg]
  rfl

theorem writePkgs_no_slash {σ : Type} (env : Env σ) (genName : GeneratorName)
    (templateRaw : String) (pkgPath : String) (specs : cmdData σ)
    (rest : List (String × cmdData σ)) (st : List Event × List GoError)
    (buf content : String) (hp : '/' ∉ pkgPath.data)
    (hexec : env.templateExecute templateRaw specs = .ok buf)
    (hfmt : env.formatSource buf = .ok content) :
    writePkgs env genName templateRaw ((pkgPath, specs) :: rest) st
      = .error (st.1 ++ [.execute genName pkgPath], .panic) := by
  obtain ⟨trace, errors⟩ := st
  rw [writePkgs]
  simp only [hexec, hfmt, stringsSplitN2_of_no_sep '/' pkgPath hp]
  rfl

/-! ## Lemmas: `GetPackage` -/

theorem GetPackage_hit {σ : Type} (env : Env σ) (sg : SimpleGenerator σ) (path : String)
    (pkg : Package) (h : mapGet path sg.pkgs = some pkg) :
    sg.GetPackage env path = { sg := sg, pkg := .ok pkg, loads := [] } := by
  unfold SimpleGenerator.GetPackage
  rw [h]

theorem GetPackage_load {σ : Type} (env : Env σ) (sg : SimpleGenerator σ) (path : String)
    (pkg : Package) (h : mapGet path sg.pkgs = none)
    (hload : env.packagesLoad [path] = .ok [pkg]) :
    sg.GetPackage env path
      = { sg := { sg with pkgs := mapSet path pkg sg.pkgs }, pkg := .ok pkg, loads := [path] } := by
  unfold SimpleGenerator.GetPackage
  rw [h]
  simp only [hload]

theorem GetPackage_fail {σ : Type} (env : Env σ) (sg : SimpleGenerator σ) (path : String)
    (h : mapGet path sg.pkgs = none)
    (hload : ∀ pkg, env.packagesLoad [path] ≠ .ok [pkg]) :
    ∃ err, sg.GetPackage env path = { sg := sg, pkg := .error err, loads := [path] } := by
  unfold SimpleGenerator.GetPackage
  rw [h]
  cases hl : env.packagesLoad [path] with
  | error err => exact ⟨err, rfl⟩
  | ok pkgs =>
    match pkgs, hl with
    | [], _ => exact ⟨.tooManyPackages path, rfl⟩
    | [pkg], hl => exact absurd hl (hload pkg)
    | _ :: _ :: _, _ => exact ⟨.tooManyPackages path, rfl⟩

theorem GetPackage_loads {σ : Type} (env : Env σ) (sg : SimpleGenerator σ) (path : String) :
    (sg.GetPackage env path).loads = if (mapGet path sg.pkgs).isSome then [] else [path] := by
  unfold SimpleGenerator.GetPackage
  cases h : mapGet path sg.pkgs with
  | some pkg => rfl
  | none =>
    simp only [Option.isSome_none, Bool.false_eq_true, if_false]
    cases env.packagesLoad [path] with
    | error err => rfl
    | ok pkgs =>
      match pkgs with
      | [] => rfl
      | [_] => rfl
      | _ :: _ :: _ => rfl

theorem GetPackage_index_mono {σ : Type} (env : Env σ) (sg : SimpleGenerator σ)
    (path p : String) (h : (mapGet p sg.pkgs).isSome = true) :
    (mapGet p (sg.GetPackage env path).sg.pkgs).isSome = true := by
  unfold SimpleGenerator.GetPackage
  cases hm : mapGet path sg.pkgs with
  | some pkg => exact h
  | none =>
    simp only
    cases env.packagesLoad [path] with
    | error err => exact h
    | ok pkgs =>
      match pkgs with
      | [] => exact h
      | [pkg] =>
        simp only
        by_cases hp : path = p
        · rw [hp, mapGet_mapSet_eq]
          rfl
        · rw [mapGet_mapSet_ne path p pkg sg.pkgs hp]
          exact h
      | _ :: _ :: _ => exact h

theorem getPackages_loads_not_indexed {σ : Type} (env : Env σ) (paths : List String)
    (sg : SimpleGenerator σ) :
    ∀ p ∈ (getPackages env sg paths).loads, mapGet p sg.pkgs = none := by
  induction paths generalizing sg with
  | nil =>
    intro p hp
    cases hp
  | cons path paths ih =>
    intro p hp
    simp only [getPackages, List.mem_append] at hp
    rcases hp with hp | hp
    · rw [GetPackage_loads] at hp
      cases hm : mapGet path sg.pkgs with
      | some pkg => simp [hm] at hp
      | none =>
        simp only [hm, Option.isSome_none, Bool.false_eq_true, if_false,
          List.mem_singleton] at hp
        rw [hp, hm]
    · have h1 := ih (sg.GetPackage env path).sg p hp
      cases hm : mapGet p sg.pkgs with
      | none => rfl
      | some pkg =>
        have h2 := GetPackage_index_mono env sg path p (by simp [hm])
        rw [h1] at h2
        cases h2

theorem getPackages_loads_count {σ : Type} (env : Env σ) (paths : List String)
    (sg : SimpleGenerator σ) (p : String) (pkg : Package)
    (hload : env.packagesLoad [p] = .ok [pkg]) :
    (getPackages env sg paths).loads.count p ≤ 1 := by
  induction paths generalizing sg with
  | nil => simp [getPackages]
  | cons path paths ih =>
    simp only [getPackages, List.count_append]
    by_cases hp : path = p ∧ mapGet path sg.pkgs = none
    · obtain ⟨rfl, hm⟩ := hp
      rw [GetPackage_load env sg path pkg hm hload]
      have hnot : path ∉ (getPackages env
          { sg with pkgs := mapSet path pkg sg.pkgs } paths).loads := by
        intro hmem
        have h := getPackages_loads_not_indexed env paths _ path hmem
        simp only at h
        rw [mapGet_mapSet_eq] at h
        cases h
      simp [List.count_eq_zero_of_not_mem hnot]
    · have hzero : (sg.GetPackage env path).loads.count p = 0 := by
        rw [GetPackage_loads]
        cases hm : mapGet path sg.pkgs with
        | some v => simp
        | none =>
          have hne : path ≠ p := fun e => hp ⟨e, hm⟩
          have hnot : p ∉ [path] := by
            simp only [List.mem_singleton]
            exact fun e => hne e.symm
          simp [List.count_eq_zero_of_not_mem hnot]
      rw [hzero, Nat.zero_add]
      exact ih _

theorem GetPackage_index_stable {σ : Type} (env : Env σ) (sg : SimpleGenerator σ)
    (path p : String) (v : Package) (h : mapGet p sg.pkgs = some v) :
    mapGet p (sg.GetPackage env path).sg.pkgs = some v := by
  unfold SimpleGenerator.GetPackage
  cases hm : mapGet path sg.pkgs with
  | some pkg => exact h
  | none =>
    simp only
    cases env.packagesLoad [path] with
    | error err => exact h
    | ok pkgs =>
      match pkgs with
      | [] => exact h
      | [pkg] =>
        simp only
        have hp : path ≠ p := by
          intro e
          rw [e, h] at hm
          cases hm
        rw [mapGet_mapSet_ne path p pkg sg.pkgs hp]
        exact h
      | _ :: _ :: _ => exact h

theorem getPackages_index_stable {σ : Type} (env : Env σ) (paths : List String)
    (sg : SimpleGenerator σ) (p : String) (v : Package) (h : mapGet p sg.pkgs = some v) :
    mapGet p (getPackages env sg paths).sg.pkgs = some v := by
  induction paths generalizing sg with
  | nil => exact h
  | cons path paths ih =>
    simp only [getPackages]
    exact ih _ (GetPackage_index_stable env sg path p v h)

theorem length_filterMap_add_filter_isNone {α β : Type} (f : α → Option β) (l : List α) :
    (l.filterMap f).length + (l.filter (fun x => (f x).isNone)).length = l.length := by
  induction l with
  | nil => rfl
  | cons a l ih =>
    cases h : f a with
    | none =>
      simp only [List.filterMap_cons, h, List.filter_cons, Option.isNone_none, if_true,
        List.length_cons]
      omega
    | some b =>
      simp only [List.filterMap_cons, h, List.filter_cons, Option.isNone_some,
        Bool.false_eq_true, if_false, List.length_cons]
      omega

/-! ## Lemmas: `write` pass by pass -/

theorem writePkgs_cons {σ : Type} (env : Env σ) (genName : GeneratorName) (templateRaw : String)
    (pkgPath : String) (specs : cmdData σ) (rest : List (String × cmdData σ))
    (trace : List Event) (errors : List GoError) :
    writePkgs env genName templateRaw ((pkgPath, specs) :: rest) (trace, errors) =
      match (writeGroup env genName templateRaw pkgPath specs).2 with
      | .error r => .error (trace ++ (writeGroup env genName templateRaw pkgPath specs).1, r)
      | .ok es =>
        writePkgs env genName templateRaw rest
          (trace ++ (writeGroup env genName templateRaw pkgPath specs).1, errors ++ es) := by
  unfold writeGroup
  rw [writePkgs]
  cases h1 : env.templateExecute templateRaw specs with
  | error err => simp
  | ok buf =>
    cases h2 : env.formatSource buf with
    | error err => simp [h2]
    | ok content =>
      cases h3 : (stringsSplitN2 pkgPath '/').get? 1 with
      | none =>
        rw [List.get?_eq_getElem?] at h3
        simp [h2, h3]
      | some rel =>
        rw [List.get?_eq_getElem?] at h3
        cases h4 : (writeFile env (rel ++ ("/" ++ genName ++ "_gen.go")) content).2 <;>
          simp [h2, h3, h4, List.append_assoc]

theorem writeGroup_error_not_completed {σ : Type} (env : Env σ) (genName : GeneratorName)
    (templateRaw : String) (pkgPath : String) (specs : cmdData σ) (r : RunResult)
    (h : (writeGroup env genName templateRaw pkgPath specs).2 = .error r) :
    r.completed = false := by
  unfold writeGroup at h
  cases h1 : env.templateExecute templateRaw specs with
  | error err =>
    simp only [h1, Except.error.injEq] at h
    subst h
    rfl
  | ok buf =>
    cases h2 : env.formatSource buf with
    | error err => simp [h1, h2] at h
    | ok content =>
      cases h3 : (stringsSplitN2 pkgPath '/').get? 1 with
      | none =>
        simp only [h1, h2, h3, Except.error.injEq] at h
        subst h
        rfl
      | some rel =>
        rw [List.get?_eq_getElem?] at h3
        simp [h1, h2, h3] at h

theorem writePkgs_of_all_ok {σ : Type} (env : Env σ) (genName : GeneratorName)
    (templateRaw : String) (inner : List (String × cmdData σ)) (st : List Event × List GoError)
    (h : ∀ x ∈ inner, writeGroupOk env genName templateRaw x.1 x.2 = true) :
    writePkgs env genName templateRaw inner st =
      .ok (st.1 ++ inner.flatMap (fun x => (writeGroup env genName templateRaw x.1 x.2).1),
           st.2 ++ inner.flatMap (fun x => writeGroupErrors env genName templateRaw x.1 x.2)) := by
  induction inner generalizing st with
  | nil =>
    obtain ⟨trace, errors⟩ := st
    simp [writePkgs]
  | cons x inner ih =>
    obtain ⟨pkgPath, specs⟩ := x
    obtain ⟨trace, errors⟩ := st
    have hx := h (pkgPath, specs) (List.mem_cons_self _ _)
    rw [writePkgs_cons]
    unfold writeGroupOk at hx
    simp only at hx
    cases hr : (writeGroup env genName templateRaw pkgPath specs).2 with
    | error r =>
      rw [hr] at hx
      simp at hx
    | ok es =>
      simp only
      rw [ih _ (fun y hy => h y (List.mem_cons_of_mem _ hy))]
      simp [List.flatMap_cons, writeGroupErrors, hr, List.append_assoc]

theorem writePkgs_of_some_not_ok {σ : Type} (env : Env σ) (genName : GeneratorName)
    (templateRaw : String) (inner : List (String × cmdData σ)) (st : List Event × List GoError)
    (h : ∃ x ∈ inner, writeGroupOk env genName templateRaw x.1 x.2 = false) :
    ∃ trace r, writePkgs env genName templateRaw inner st = .error (trace, r) ∧
      r.completed = false := by
  induction inner generalizing st with
  | nil =>
    obtain ⟨x, hx, _⟩ := h
    simp at hx
  | cons x inner ih =>
    obtain ⟨pkgPath, specs⟩ := x
    obtain ⟨trace, errors⟩ := st
    rw [writePkgs_cons]
    cases hr : (writeGroup env genName templateRaw pkgPath specs).2 with
    | error r =>
      exact ⟨_, r, rfl, writeGroup_error_not_completed env genName templateRaw pkgPath specs r hr⟩
    | ok es =>
      simp only
      apply ih
      obtain ⟨y, hy, hyo⟩ := h
      rcases List.mem_cons.mp hy with rfl | hy
      · unfold writeGroupOk at hyo
        simp only at hyo
        rw [hr] at hyo
        simp at hyo
      · exact ⟨y, hy, hyo⟩

theorem writeGens_of_all_ok {σ : Type} (env : Env σ) (generators : GeneratorsMap σ)
    (groups : Groups σ) (st : List Event × List GoError)
    (hparse : ∀ d, env.templateParse (templateRawOf env generators d) = true)
    (h : ∀ gi ∈ groups, ∀ x ∈ gi.2,
      writeGroupOk env gi.1 (templateRawOf env generators gi.1) x.1 x.2 = true) :
    writeGens env generators groups st =
      .ok (st.1 ++ groups.flatMap (fun gi => gi.2.flatMap (fun x =>
              (writeGroup env gi.1 (templateRawOf env generators gi.1) x.1 x.2).1)),
           st.2 ++ groups.flatMap (fun gi => gi.2.flatMap (fun x =>
              writeGroupErrors env gi.1 (templateRawOf env generators gi.1) x.1 x.2))) := by
  induction groups generalizing st with
  | nil => simp [writeGens]
  | cons gi groups ih =>
    obtain ⟨genName, genData⟩ := gi
    rw [writeGens]
    have hp := hparse genName
    unfold templateRawOf at hp
    simp only [hp, if_true]
    have h1 := writePkgs_of_all_ok env genName (templateRawOf env generators genName) genData st
      (h (genName, genData) (List.mem_cons_self _ _))
    unfold templateRawOf at h1
    rw [h1]
    simp only
    rw [ih _ (fun y hy => h y (List.mem_cons_of_mem _ hy))]
    simp [List.flatMap_cons, templateRawOf, List.append_assoc]

theorem writeGens_of_some_not_ok {σ : Type} (env : Env σ) (generators : GeneratorsMap σ)
    (groups : Groups σ) (st : List Event × List GoError)
    (hparse : ∀ d, env.templateParse (templateRawOf env generators d) = true)
    (h : ∃ gi ∈ groups, ∃ x ∈ gi.2,
      writeGroupOk env gi.1 (templateRawOf env generators gi.1) x.1 x.2 = false) :
    ∃ trace r, writeGens env generators groups st = .error (trace, r) ∧
      r.completed = false := by
  induction groups generalizing st with
  | nil =>
    obtain ⟨gi, hgi, _⟩ := h
    simp at hgi
  | cons gi groups ih =>
    obtain ⟨genName, genData⟩ := gi
    rw [writeGens]
    have hp := hparse genName
    unfold templateRawOf at hp
    simp only [hp, if_true]
    by_cases hall : ∀ x ∈ genData,
        writeGroupOk env genName (templateRawOf env generators genName) x.1 x.2 = true
    · have h1 := writePkgs_of_all_ok env genName (templateRawOf env generators genName) genData st
        hall
      unfold templateRawOf at h1
      rw [h1]
      simp only
      apply ih
      obtain ⟨y, hy, x, hx, hxo⟩ := h
      rcases List.mem_cons.mp hy with rfl | hy
      · rw [hall x hx] at hxo
        simp at hxo
      · exact ⟨y, hy, x, hx, hxo⟩
    · have hex : ∃ x ∈ genData,
          writeGroupOk env genName (templateRawOf env generators genName) x.1 x.2 = false := by
        by_contra hcon
        apply hall
        intro x hx
        cases hb : writeGroupOk env genName (templateRawOf env generators genName) x.1 x.2 with
        | true => rfl
        | false => exact absurd ⟨x, hx, hb⟩ hcon
      obtain ⟨trace, r, h1, hr⟩ :=
        writePkgs_of_some_not_ok env genName (templateRawOf env generators genName) genData st hex
      unfold templateRawOf at h1
      rw [h1]
      exact ⟨trace, r, rfl, hr⟩
theorem write_of_all_ok {σ : Type} (env : Env σ) (sg : SimpleGenerator σ)
    (hparse : ∀ d, env.templateParse (templateRawOf env sg.generators d) = true)
    (h : ∀ gi ∈ sg.cmdData, ∀ x ∈ gi.2,
      writeGroupOk env gi.1 (templateRawOf env sg.generators gi.1) x.1 x.2 = true) :
    (sg.write env).2.completed = true ∧
    (sg.write env).1 = sg.cmdData.flatMap (fun gi => gi.2.flatMap (fun x =>
      (writeGroup env gi.1 (templateRawOf env sg.generators gi.1) x.1 x.2).1)) := by
  unfold SimpleGenerator.write
  rw [writeGens_of_all_ok env sg.generators sg.cmdData ([], []) hparse h]
  simp only [List.nil_append]
  split <;> exact ⟨rfl, rfl⟩

theorem write_of_some_not_ok {σ : Type} (env : Env σ) (sg : SimpleGenerator σ)
    (hparse : ∀ d, env.templateParse (templateRawOf env sg.generators d) = true)
    (h : ∃ gi ∈ sg.cmdData, ∃ x ∈ gi.2,
      writeGroupOk env gi.1 (templateRawOf env sg.generators gi.1) x.1 x.2 = false) :
    (sg.write env).2.completed = false := by
  obtain ⟨trace, r, hw, hr⟩ :=
    writeGens_of_some_not_ok env sg.generators sg.cmdData ([], []) hparse h
  unfold SimpleGenerator.write
  rw [hw]
  exact hr

theorem write_completed_iff {σ : Type} (env : Env σ) (sg : SimpleGenerator σ)
    (hparse : ∀ d, env.templateParse (templateRawOf env sg.generators d) = true) :
    (sg.write env).2.completed = true ↔
      ∀ gi ∈ sg.cmdData, ∀ x ∈ gi.2,
        writeGroupOk env gi.1 (templateRawOf env sg.generators gi.1) x.1 x.2 = true := by
  constructor
  · intro hc gi hgi x hx
    cases hb : writeGroupOk env gi.1 (templateRawOf env sg.generators gi.1) x.1 x.2 with
    | true => rfl
    | false =>
      rw [write_of_some_not_ok env sg hparse ⟨gi, hgi, x, hx, hb⟩] at hc
      exact absurd hc (by decide)
  · intro h
    exact (write_of_all_ok env sg hparse h).1

/-! ## Lemmas: the groups are a map of maps -/

theorem mem_of_mapGet {κ ν : Type} [DecidableEq κ] (k : κ) (v : ν) (m : List (κ × ν))
    (h : mapGet k m = some v) : (k, v) ∈ m := by
  induction m with
  | nil => simp [mapGet] at h
  | cons kv m ih =>
    obtain ⟨k1, v1⟩ := kv
    by_cases hk : k1 = k
    · subst hk
      simp only [mapGet, if_true, Option.some.injEq] at h
      subst h
      exact List.mem_cons_self _ _
    · simp only [mapGet, hk, if_false] at h
      exact List.mem_cons_of_mem _ (ih h)

theorem mapGet_of_mem {κ ν : Type} [DecidableEq κ] (k : κ) (v : ν) (m : List (κ × ν))
    (hnd : (m.map Prod.fst).Nodup) (h : (k, v) ∈ m) : mapGet k m = some v := by
  induction m with
  | nil => simp at h
  | cons kv m ih =>
    obtain ⟨k1, v1⟩ := kv
    rw [List.map_cons, List.nodup_cons] at hnd
    rcases List.mem_cons.mp h with heq | hm
    · simp only [Prod.mk.injEq] at heq
      obtain ⟨rfl, rfl⟩ := heq
      simp [mapGet]
    · have hne : k1 ≠ k := by
        intro hk
        subst hk
        exact hnd.1 (List.mem_map.mpr ⟨(k1, v), hm, rfl⟩)
      simp only [mapGet, hne, if_false]
      exact ih hnd.2 hm

theorem mem_mapSet {κ ν : Type} [DecidableEq κ] (k : κ) (v : ν) (m : List (κ × ν))
    (x : κ × ν) (h : x ∈ mapSet k v m) : x = (k, v) ∨ x ∈ m := by
  induction m with
  | nil =>
    simp only [mapSet, List.mem_singleton] at h
    exact Or.inl h
  | cons kv m ih =>
    obtain ⟨k1, v1⟩ := kv
    by_cases hk : k1 = k
    · simp only [mapSet, hk, if_true, List.mem_cons] at h
      rcases h with h | h
      · exact Or.inl h
      · exact Or.inr (List.mem_cons_of_mem _ h)
    · simp only [mapSet, hk, if_false, List.mem_cons] at h
      rcases h with h | h
      · exact Or.inr (h ▸ List.mem_cons_self _ _)
      · rcases ih h with h | h
        · exact Or.inl h
        · exact Or.inr (List.mem_cons_of_mem _ h)

theorem mapSet_keys_nodup {κ ν : Type} [DecidableEq κ] (k : κ) (v : ν) (m : List (κ × ν))
    (hnd : (m.map Prod.fst).Nodup) : ((mapSet k v m).map Prod.fst).Nodup := by
  induction m with
  | nil => simp [mapSet]
  | cons kv m ih =>
    obtain ⟨k1, v1⟩ := kv
    rw [List.map_cons, List.nodup_cons] at hnd
    by_cases hk : k1 = k
    · subst hk
      simp only [mapSet, if_true, List.map_cons, List.nodup_cons]
      exact hnd
    · simp only [mapSet, hk, if_false, List.map_cons, List.nodup_cons]
      refine ⟨?_, ih hnd.2⟩
      intro hmem
      obtain ⟨x, hx, hx1⟩ := List.mem_map.mp hmem
      rcases mem_mapSet k v m x hx with rfl | hxm
      · exact hk hx1.symm
      · exact hnd.1 (List.mem_map.mpr ⟨x, hxm, hx1⟩)

theorem groupsWellFormed_nil {σ : Type} : groupsWellFormed ([] : Groups σ) :=
  ⟨List.nodup_nil, fun _ h => absurd h (List.not_mem_nil _)⟩

theorem groupsWellFormed_mapSet {σ : Type} (m : Groups σ) (genName : GeneratorName)
    (inner : List (String × cmdData σ)) (hwf : groupsWellFormed m)
    (hin : (inner.map Prod.fst).Nodup) : groupsWellFormed (mapSet genName inner m) := by
  refine ⟨mapSet_keys_nodup genName inner m hwf.1, ?_⟩
  intro gi hgi
  rcases mem_mapSet genName inner m gi hgi with rfl | h
  · exact hin
  · exact hwf.2 gi h

theorem groupsWellFormed_mapGet {σ : Type} (m : Groups σ) (genName : GeneratorName)
    (hwf : groupsWellFormed m) : (((mapGet genName m).getD []).map Prod.fst).Nodup := by
  cases h : mapGet genName m with
  | none => simp
  | some inner => exact hwf.2 (genName, inner) (mem_of_mapGet genName inner m h)

theorem add_wellFormed {σ : Type} (sg : SimpleGenerator σ) (genName : GeneratorName)
    (pkg : Package) (node : TypeSpec) (comment : Comment) (genFunc : GeneratorFunc σ)
    (hwf : groupsWellFormed sg.cmdData) :
    groupsWellFormed (sg.add genName pkg node comment genFunc).1.cmdData := by
  unfold SimpleGenerator.add
  have hwf1 : groupsWellFormed
      (if (mapGet genName sg.cmdData).isNone then
        { sg with cmdData := mapSet genName [] sg.cmdData }
      else sg).cmdData := by
    split
    · exact groupsWellFormed_mapSet sg.cmdData genName [] hwf List.nodup_nil
    · exact hwf
  generalize (if (mapGet genName sg.cmdData).isNone then
        { sg with cmdData := mapSet genName [] sg.cmdData }
      else sg) = sg1 at hwf1
  cases genFunc pkg node comment with
  | error err => exact hwf1
  | ok r =>
    obtain ⟨templateData, rawImports⟩ := r
    simp only
    apply groupsWellFormed_mapSet _ _ _ hwf1
    have h0 := groupsWellFormed_mapGet sg1.cmdData genName hwf1
    generalize (mapGet genName sg1.cmdData).getD [] = genData at h0
    have h1 : ((if (mapGet pkg.PkgPath genData).isNone then
        mapSet pkg.PkgPath (newGeneratorData pkg.Name (uniqueImports rawImports)) genData
      else genData).map Prod.fst).Nodup := by
      split
      · exact mapSet_keys_nodup _ _ _ h0
      · exact h0
    generalize (if (mapGet pkg.PkgPath genData).isNone then
        mapSet pkg.PkgPath (newGeneratorData pkg.Name (uniqueImports rawImports)) genData
      else genData) = genData1 at h1
    split
    · exact mapSet_keys_nodup _ _ _ h1
    · exact h1

theorem foldl_addStep_wellFormed {σ : Type} (ms : List (Match σ)) (st : ScanState σ)
    (hwf : groupsWellFormed st.1.cmdData) :
    groupsWellFormed (ms.foldl addStep st).1.cmdData := by
  induction ms generalizing st with
  | nil => exact hwf
  | cons m ms ih =>
    rw [List.foldl_cons]
    apply ih
    rw [addStep_fst]
    exact add_wellFormed st.1 m.genName m.pkg m.node m.comment m.genFunc hwf

theorem Generate_wellFormed {σ : Type} (env : Env σ) (sg : SimpleGenerator σ)
    (hwf : groupsWellFormed sg.cmdData) : groupsWellFormed (sg.Generate env).sg.cmdData := by
  rw [Generate_cmdData]
  exact foldl_addStep_wellFormed (scanMatches sg) (sg, []) hwf

theorem groupOf_iff_mem {σ : Type} (m : Groups σ) (hwf : groupsWellFormed m)
    (genName : GeneratorName) (pkgPath : String) (gd : cmdData σ) :
    groupOf m genName pkgPath = some gd ↔
      ∃ inner, (genName, inner) ∈ m ∧ (pkgPath, gd) ∈ inner := by
  unfold groupOf
  constructor
  · intro h
    cases hm : mapGet genName m with
    | none => simp [hm] at h
    | some inner =>
      rw [hm] at h
      exact ⟨inner, mem_of_mapGet genName inner m hm, mem_of_mapGet pkgPath gd inner h⟩
  · rintro ⟨inner, h1, h2⟩
    rw [mapGet_of_mem genName inner m hwf.1 h1]
    exact mapGet_of_mem pkgPath gd inner (hwf.2 _ h1) h2
theorem write_nil_iff {σ : Type} (env : Env σ) (sg : SimpleGenerator σ)
    (hparse : ∀ d, env.templateParse (templateRawOf env sg.generators d) = true)
    (h : ∀ gi ∈ sg.cmdData, ∀ x ∈ gi.2,
      writeGroupOk env gi.1 (templateRawOf env sg.generators gi.1) x.1 x.2 = true) :
    (sg.write env).2 = .nil ↔
      ∀ gi ∈ sg.cmdData, ∀ x ∈ gi.2,
        writeGroupErrors env gi.1 (templateRawOf env sg.generators gi.1) x.1 x.2 = [] := by
  unfold SimpleGenerator.write
  rw [writeGens_of_all_ok env sg.generators sg.cmdData ([], []) hparse h]
  simp only [List.nil_append]
  generalize hes : sg.cmdData.flatMap (fun gi => gi.2.flatMap (fun x =>
      writeGroupErrors env gi.1 (templateRawOf env sg.generators gi.1) x.1 x.2)) = es
  have hnil : es = [] ↔ ∀ gi ∈ sg.cmdData, ∀ x ∈ gi.2,
      writeGroupErrors env gi.1 (templateRawOf env sg.generators gi.1) x.1 x.2 = [] := by
    rw [← hes]
    simp only [List.flatMap_eq_nil_iff]
  rw [← hnil]
  cases es with
  | nil => simp
  | cons a es => simp

/-! ## Lemmas: `Generate` in terms of the groups -/

theorem templateRawOf_perm {σ : Type} (env : Env σ) (gens gens2 : GeneratorsMap σ)
    (hgn : (gens.map Prod.fst).Nodup) (hg : gens.Perm gens2) (d : GeneratorName) :
    templateRawOf env gens d = templateRawOf env gens2 d := by
  unfold templateRawOf
  rw [mapGet_eq_filter d gens, mapGet_eq_filter d gens2,
    filter_key_eq_of_perm Prod.fst d gens gens2 hg hgn]

theorem scanMatches_mem_of_perm {σ : Type} (sg sg2 : SimpleGenerator σ)
    (hpk : (sg.pkgs.map (fun kp => kp.2.PkgPath)).Nodup)
    (hgn : (sg.generators.map Prod.fst).Nodup)
    (hp : sg.pkgs.Perm sg2.pkgs) (hg : sg.generators.Perm sg2.generators)
    (m : Match σ) (h : m ∈ scanMatches sg) : m ∈ scanMatches sg2 := by
  have hf := scanMatches_filter_perm sg sg2 hpk hgn hp hg m.genName m.pkg.PkgPath
  have hm : m ∈ (scanMatches sg).filter (Match.inGroup m.genName m.pkg.PkgPath) :=
    List.mem_filter.mpr ⟨h, by simp [Match.inGroup]⟩
  rw [hf] at hm
  exact (List.mem_filter.mp hm).1

theorem scanErrors_nil_of_perm {σ : Type} (sg sg2 : SimpleGenerator σ)
    (hpk : (sg.pkgs.map (fun kp => kp.2.PkgPath)).Nodup)
    (hgn : (sg.generators.map Prod.fst).Nodup)
    (hp : sg.pkgs.Perm sg2.pkgs) (hg : sg.generators.Perm sg2.generators) :
    (scanMatches sg).filterMap Match.callError = [] ↔
      (scanMatches sg2).filterMap Match.callError = [] := by
  have hpk2 : (sg2.pkgs.map (fun kp => kp.2.PkgPath)).Nodup :=
    (List.Perm.nodup_iff (hp.map _)).mp hpk
  have hgn2 : (sg2.generators.map Prod.fst).Nodup :=
    (List.Perm.nodup_iff (hg.map _)).mp hgn
  simp only [List.filterMap_eq_nil_iff]
  constructor
  · intro h m hm
    exact h m (scanMatches_mem_of_perm sg2 sg hpk2 hgn2 hp.symm hg.symm m hm)
  · intro h m hm
    exact h m (scanMatches_mem_of_perm sg sg2 hpk hgn hp hg m hm)

theorem forall_groups_iff {σ : Type} (m : Groups σ) (hwf : groupsWellFormed m)
    (P : GeneratorName → String → cmdData σ → Prop) :
    (∀ gi ∈ m, ∀ x ∈ gi.2, P gi.1 x.1 x.2) ↔
      ∀ d p gd, groupOf m d p = some gd → P d p gd := by
  constructor
  · intro h d p gd hgd
    obtain ⟨inner, h1, h2⟩ := (groupOf_iff_mem m hwf d p gd).mp hgd
    exact h (d, inner) h1 (p, gd) h2
  · intro h gi hgi x hx
    exact h gi.1 x.1 x.2 ((groupOf_iff_mem m hwf gi.1 x.1 x.2).mpr ⟨gi.2, hgi, hx⟩)

theorem Generate_completed_iff {σ : Type} (env : Env σ) (sg : SimpleGenerator σ)
    (hwf : groupsWellFormed sg.cmdData)
    (hparse : ∀ d, env.templateParse (templateRawOf env sg.generators d) = true) :
    (sg.Generate env).result.completed = true ↔
      ((scanMatches sg).filterMap Match.callError ≠ [] ∨
        ∀ d p gd, groupOf (sg.Generate env).sg.cmdData d p = some gd →
          writeGroupOk env d (templateRawOf env sg.generators d) p gd = true) := by
  by_cases h : (scanMatches sg).filterMap Match.callError = []
  · have hw := Generate_of_no_errors env sg h
    have hr : (sg.Generate env).result = ((sg.Generate env).sg.write env).2 :=
      congrArg Prod.snd hw
    have hparse2 : ∀ d, env.templateParse
        (templateRawOf env (sg.Generate env).sg.generators d) = true := by
      rw [Generate_generators]
      exact hparse
    rw [hr, write_completed_iff env (sg.Generate env).sg hparse2,
      forall_groups_iff (sg.Generate env).sg.cmdData (Generate_wellFormed env sg hwf)
        (fun d p gd => writeGroupOk env d
          (templateRawOf env (sg.Generate env).sg.generators d) p gd = true),
      Generate_generators]
    constructor
    · intro h1
      exact Or.inr h1
    · rintro (h1 | h1)
      · exact absurd h h1
      · exact h1
  · rw [(Generate_of_errors env sg h).1]
    exact ⟨fun _ => Or.inl h, fun _ => rfl⟩

theorem Generate_trace_mem {σ : Type} (env : Env σ) (sg : SimpleGenerator σ)
    (hwf : groupsWellFormed sg.cmdData)
    (hparse : ∀ d, env.templateParse (templateRawOf env sg.generators d) = true)
    (hc : (sg.Generate env).result.completed = true) (e : Event) :
    e ∈ (sg.Generate env).trace ↔
      ((scanMatches sg).filterMap Match.callError = [] ∧
        ∃ d p gd, groupOf (sg.Generate env).sg.cmdData d p = some gd ∧
          e ∈ (writeGroup env d (templateRawOf env sg.generators d) p gd).1) := by
  by_cases h : (scanMatches sg).filterMap Match.callError = []
  · have hw := Generate_of_no_errors env sg h
    have hr : (sg.Generate env).result = ((sg.Generate env).sg.write env).2 :=
      congrArg Prod.snd hw
    have ht : (sg.Generate env).trace = ((sg.Generate env).sg.write env).1 :=
      congrArg Prod.fst hw
    have hparse2 : ∀ d, env.templateParse
        (templateRawOf env (sg.Generate env).sg.generators d) = true := by
      rw [Generate_generators]
      exact hparse
    rw [hr, write_completed_iff env (sg.Generate env).sg hparse2] at hc
    rw [ht, (write_of_all_ok env (sg.Generate env).sg hparse2 hc).2, Generate_generators]
    simp only [List.mem_flatMap, h, true_and]
    constructor
    · rintro ⟨gi, hgi, x, hx, he⟩
      exact ⟨gi.1, x.1, x.2,
        (groupOf_iff_mem _ (Generate_wellFormed env sg hwf) gi.1 x.1 x.2).mpr ⟨gi.2, hgi, hx⟩,
        he⟩
    · rintro ⟨d, p, gd, hgd, he⟩
      obtain ⟨inner, h1, h2⟩ :=
        (groupOf_iff_mem _ (Generate_wellFormed env sg hwf) d p gd).mp hgd
      exact ⟨(d, inner), h1, (p, gd), h2, he⟩
  · rw [(Generate_of_errors env sg h).2]
    simp [h]

theorem Generate_nil_iff {σ : Type} (env : Env σ) (sg : SimpleGenerator σ)
    (hwf : groupsWellFormed sg.cmdData)
    (hparse : ∀ d, env.templateParse (templateRawOf env sg.generators d) = true)
    (hc : (sg.Generate env).result.completed = true) :
    (sg.Generate env).result = .nil ↔
      ((scanMatches sg).filterMap Match.callError = [] ∧
        ∀ d p gd, groupOf (sg.Generate env).sg.cmdData d p = some gd →
          writeGroupErrors env d (templateRawOf env sg.generators d) p gd = []) := by
  by_cases h : (scanMatches sg).filterMap Match.callError = []
  · have hw := Generate_of_no_errors env sg h
    have hr : (sg.Generate env).result = ((sg.Generate env).sg.write env).2 :=
      congrArg Prod.snd hw
    have hparse2 : ∀ d, env.templateParse
        (templateRawOf env (sg.Generate env).sg.generators d) = true := by
      rw [Generate_generators]
      exact hparse
    rw [hr, write_completed_iff env (sg.Generate env).sg hparse2] at hc
    rw [hr, write_nil_iff env (sg.Generate env).sg hparse2 hc,
      forall_groups_iff (sg.Generate env).sg.cmdData (Generate_wellFormed env sg hwf)
        (fun d p gd => writeGroupErrors env d
          (templateRawOf env (sg.Generate env).sg.generators d) p gd = []),
      Generate_generators]
    simp [h]
  · rw [(Generate_of_errors env sg h).1]
    simp [h]

theorem Generate_groupOf_perm {σ : Type} (env : Env σ) (sg sg2 : SimpleGenerator σ)
    (hpk : (sg.pkgs.map (fun kp => kp.2.PkgPath)).Nodup)
    (hgn : (sg.generators.map Prod.fst).Nodup)
    (hp : sg.pkgs.Perm sg2.pkgs) (hg : sg.generators.Perm sg2.generators)
    (hc : ∀ d p, groupOf sg.cmdData d p = groupOf sg2.cmdData d p) (d : GeneratorName)
    (p : String) :
    groupOf (sg.Generate env).sg.cmdData d p = groupOf (sg2.Generate env).sg.cmdData d p := by
  rw [Generate_cmdData, Generate_cmdData, groupOf_foldl_addStep, groupOf_foldl_addStep,
    scanMatches_filter_perm sg sg2 hpk hgn hp hg d p, hc]

/-- When the template of one group fails to execute, `write` is cut short
and what a run has written depends on the order in which the groups are
visited: with package `a` first nothing is written, with package `b` first
the file of `b` is. -/
theorem Generate_cut_short_depends_on_order :
    (twoGroups.Generate renderFailEnv).result.completed = false ∧
    (twoGroupsSwapped.Generate renderFailEnv).result.completed = false ∧
    (twoGroups.Generate renderFailEnv).trace = [.execute "names" "proj/a"] ∧
    (twoGroupsSwapped.Generate renderFailEnv).trace
      = [.execute "names" "proj/b", .create "b/names_gen.go", .write "b/names_gen.go" "b:T1",
         .execute "names" "proj/a"] := by
  refine ⟨by decide, by decide, by decide, by decide⟩

/-- The events of a `write` that is not cut short do not depend on the order
in which the two maps of the groups are visited: two engines whose groups
have the same content, in whatever order, and whose templates are the same,
produce the same events. -/
theorem write_order_independent {σ : Type} (env : Env σ) (sg sg2 : SimpleGenerator σ)
    (hwf : groupsWellFormed sg.cmdData) (hwf2 : groupsWellFormed sg2.cmdData)
    (hraw : ∀ d, templateRawOf env sg.generators d = templateRawOf env sg2.generators d)
    (hgroup : ∀ d p, groupOf sg.cmdData d p = groupOf sg2.cmdData d p)
    (hparse : ∀ d, env.templateParse (templateRawOf env sg.generators d) = true)
    (hdone : (sg.write env).2.completed = true) :
    (sg2.write env).2.completed = true ∧
    ∀ e, e ∈ (sg.write env).1 ↔ e ∈ (sg2.write env).1 := by
  have hparse2 : ∀ d, env.templateParse (templateRawOf env sg2.generators d) = true := by
    intro d
    rw [← hraw d]
    exact hparse d
  have hok := (write_completed_iff env sg hparse).mp hdone
  have hok2 : ∀ gi ∈ sg2.cmdData, ∀ x ∈ gi.2,
      writeGroupOk env gi.1 (templateRawOf env sg2.generators gi.1) x.1 x.2 = true := by
    rw [forall_groups_iff sg2.cmdData hwf2
      (fun d p gd => writeGroupOk env d (templateRawOf env sg2.generators d) p gd = true)]
    intro d p gd hgd
    rw [← hraw d]
    exact (forall_groups_iff sg.cmdData hwf
      (fun d p gd => writeGroupOk env d (templateRawOf env sg.generators d) p gd = true)).mp
      hok d p gd ((hgroup d p).trans hgd)
  refine ⟨(write_completed_iff env sg2 hparse2).mpr hok2, ?_⟩
  intro e
  rw [(write_of_all_ok env sg hparse hok).2, (write_of_all_ok env sg2 hparse2 hok2).2]
  simp only [List.mem_flatMap]
  constructor
  · rintro ⟨gi, hgi, x, hx, he⟩
    have hgd := (groupOf_iff_mem sg.cmdData hwf gi.1 x.1 x.2).mpr ⟨gi.2, hgi, hx⟩
    rw [hgroup] at hgd
    obtain ⟨inner, h1, h2⟩ := (groupOf_iff_mem sg2.cmdData hwf2 gi.1 x.1 x.2).mp hgd
    rw [hraw] at he
    exact ⟨(gi.1, inner), h1, (x.1, x.2), h2, he⟩
  · rintro ⟨gi, hgi, x, hx, he⟩
    have hgd := (groupOf_iff_mem sg2.cmdData hwf2 gi.1 x.1 x.2).mpr ⟨gi.2, hgi, hx⟩
    rw [← hgroup] at hgd
    obtain ⟨inner, h1, h2⟩ := (groupOf_iff_mem sg.cmdData hwf gi.1 x.1 x.2).mp hgd
    rw [← hraw] at he
    exact ⟨(gi.1, inner), h1, (x.1, x.2), h2, he⟩

/-! ## Claims -/

/-- **C1.** In `Generate` a failing generator call does not stop the scan:
every match of the scan is processed (each group ends as the fold of all its
matches, the failing ones leaving it as it is), the returned error is the
list of the errors of the failing calls, one per failing match and in scan
order, and when that list is not empty `Generate` returns it without any
event of the write phase. -/
theorem Generate_collects_generator_errors {σ : Type} (env : Env σ) (sg : SimpleGenerator σ) :
    (∀ genName pkgPath,
      groupOf (sg.Generate env).sg.cmdData genName pkgPath
        = ((scanMatches sg).filter (Match.inGroup genName pkgPath)).foldl groupStep
            (groupOf sg.cmdData genName pkgPath)) ∧
    ((scanMatches sg).filterMap Match.callError ≠ [] →
      (sg.Generate env).result = .sgErrors ((scanMatches sg).filterMap Match.callError) ∧
      (sg.Generate env).trace = []) ∧
    ((scanMatches sg).filterMap Match.callError = [] →
      ((sg.Generate env).trace, (sg.Generate env).result) = (sg.Generate env).sg.write env) := by
  refine ⟨?_, Generate_of_errors env sg, Generate_of_no_errors env sg⟩
  intro genName pkgPath
  rw [Generate_cmdData, groupOf_foldl_addStep]

/-- **C2, as stated, fails.** Five annotations match, the generator function
fails for exactly one of them, the four others are accumulated in their
group, and yet `Generate` has no event at all: no file is written. -/
theorem Generate_five_matches_one_error_no_file :
    (scanMatches fiveMatches).length = 5 ∧
    ((scanMatches fiveMatches).filterMap Match.callError).length = 1 ∧
    groupOf (fiveMatches.Generate plainEnv).sg.cmdData "names" "proj/b"
      = some { PackageName := "b", Imports := ["strconv"], Specs := ["T1", "T2", "T3", "T4"] } ∧
    ¬ ∃ fileName content, Event.write fileName content ∈ (fiveMatches.Generate plainEnv).trace := by
  refine ⟨by decide, by decide, by decide, ?_⟩
  have h : (fiveMatches.Generate plainEnv).trace = [] := by decide
  simp [h]

/-- **C2, amended.** If five annotations match and the generator function
fails for exactly one of them, `Generate` writes no output file (the write
phase has no event) and returns exactly one collected generator error: the
returned `sgErrors` is the list of the errors of the failing calls, which is
the one error returned by the generator call of the one failing match; the
four other matches are those whose call succeeds. -/
theorem Generate_one_error_of_five {σ : Type} (env : Env σ) (sg : SimpleGenerator σ)
    (h5 : (scanMatches sg).length = 5)
    (h1 : ((scanMatches sg).filterMap Match.callError).length = 1) :
    (sg.Generate env).trace = [] ∧
    (sg.Generate env).result = .sgErrors ((scanMatches sg).filterMap Match.callError) ∧
    ((scanMatches sg).filter (fun m => m.callError.isNone)).length = 4 ∧
    ∃ m err, m ∈ scanMatches sg ∧ m.call = .error err ∧
      (scanMatches sg).filterMap Match.callError = [err] ∧
      (sg.Generate env).result = .sgErrors [err] := by
  have hne : (scanMatches sg).filterMap Match.callError ≠ [] := by
    intro h
    rw [h] at h1
    exact absurd h1 (by decide)
  obtain ⟨hres, htrace⟩ := Generate_of_errors env sg hne
  obtain ⟨err, herr⟩ := List.length_eq_one.mp h1
  have hmem : err ∈ (scanMatches sg).filterMap Match.callError := by
    rw [herr]
    exact List.mem_singleton.mpr rfl
  obtain ⟨m, hm, hcall⟩ := List.mem_filterMap.mp hmem
  have hcount := length_filterMap_add_filter_isNone Match.callError (scanMatches sg)
  rw [h1, h5] at hcount
  refine ⟨htrace, hres, by omega, m, err, hm, ?_, herr, by rw [hres, herr]⟩
  unfold Match.callError at hcall
  cases hc : m.call with
  | error e =>
    rw [hc] at hcall
    simp only [Option.some.injEq] at hcall
    rw [hcall]
  | ok r =>
    rw [hc] at hcall
    cases hcall

/-- The amended C2 at the engine with five matches. -/
theorem Generate_one_error_of_five_witness :
    (scanMatches fiveMatches).length = 5 ∧
    ((scanMatches fiveMatches).filterMap Match.callError).length = 1 ∧
    ((fiveMatches.Generate plainEnv).trace = [] ∧
      (fiveMatches.Generate plainEnv).result
        = .sgErrors ((scanMatches fiveMatches).filterMap Match.callError) ∧
      ((scanMatches fiveMatches).filter (fun m => m.callError.isNone)).length = 4 ∧
      ∃ m err, m ∈ scanMatches fiveMatches ∧ m.call = .error err ∧
        (scanMatches fiveMatches).filterMap Match.callError = [err] ∧
        (fiveMatches.Generate plainEnv).result = .sgErrors [err]) :=
  ⟨by decide, by decide, Generate_one_error_of_five plainEnv fiveMatches (by decide) (by decide)⟩

/-- **C3, the code at the failing input.** Two groups are accumulated.  When
the template of the first fails to execute, `write` returns that error at
once: the second group is never rendered nor written.  When instead
`format.Source` fails for the first group, the error is collected and the
second group is rendered and written. -/
theorem write_stops_at_render_failure :
    (twoGroups.Generate renderFailEnv).trace = [.execute "names" "proj/a"] ∧
    (twoGroups.Generate renderFailEnv).result
      = .error (.other "template: error calling helper") ∧
    (twoGroups.Generate formatFailEnv).trace
      = [.execute "names" "proj/a", .execute "names" "proj/b",
         .create "b/names_gen.go", .write "b/names_gen.go" "b:T1"] ∧
    (twoGroups.Generate formatFailEnv).result
      = .sgErrors [.other "1:1: expected 'package'"] := by
  refine ⟨by decide, by decide, by decide, by decide⟩

/-- **C4, the code at the failing input.** Two declarations of one package
match one directive; the generator function returns the imports
`strconv, strconv` for the first and `strconv, time` for the second.  The
group holds both outputs in order, but its imports are those of the first
call only: `time`, first contributed by the second match, is missing. -/
theorem add_drops_later_imports :
    (scanMatches twoDecls).map Match.call
      = [.ok ("Plain", ["strconv", "strconv"]), .ok ("Timed", ["strconv", "time"])] ∧
    groupOf (twoDecls.Generate plainEnv).sg.cmdData "names" "proj/a"
      = some { PackageName := "a", Imports := ["strconv"], Specs := ["Plain", "Timed"] } := by
  refine ⟨rfl, by decide⟩

/-- **C5.** The visitor of `Generate` on a type declaration, with the
documentation it carries at that moment: a line without the marker keyword
`simplegen` fires no generator, and a line with it fires exactly the
registered directives whose name occurs in the line, all of them.  For a
registered directive `d` the group of `d` and the package receives one
generator call for every line that contains the marker and `d`, in order; so
a directive named in exactly one marker line of the declaration, with a
successful generator call, gets exactly one more output in its group.  No
group of another package or of an unregistered name is touched. -/
theorem visitTypeSpec_fires_named_directives {σ : Type} (pkg : Package) (node : TypeSpec)
    (st : ScanState σ) (hnd : (st.1.generators.map Prod.fst).Nodup) :
    visitTypeSpec pkg st node
      = ((node.Doc.getD []).flatMap (fun comment =>
          if stringsContains comment.Text CmdKey then
            (st.1.generators.filter (fun g => stringsContains comment.Text g.1)).map
              (fun g => ({ genName := g.1, pkg := pkg, node := node, comment := comment,
                           genFunc := g.2.GeneratorFunc } : Match σ))
          else [])).foldl addStep st ∧
    (∀ d tg, (d, tg) ∈ st.1.generators →
      groupOf (visitTypeSpec pkg st node).1.cmdData d pkg.PkgPath
        = (((node.Doc.getD []).filter
              (fun c => stringsContains c.Text CmdKey && stringsContains c.Text d)).map
              (fun c => ({ genName := d, pkg := pkg, node := node, comment := c,
                           genFunc := tg.GeneratorFunc } : Match σ))).foldl groupStep
            (groupOf st.1.cmdData d pkg.PkgPath)) ∧
    (∀ d tg c out imports, (d, tg) ∈ st.1.generators →
      (node.Doc.getD []).filter
          (fun c => stringsContains c.Text CmdKey && stringsContains c.Text d) = [c] →
      tg.GeneratorFunc pkg node c = .ok (out, imports) →
      (groupOf (visitTypeSpec pkg st node).1.cmdData d pkg.PkgPath).map (fun gd => gd.Specs)
        = some (((groupOf st.1.cmdData d pkg.PkgPath).map (fun gd => gd.Specs)).getD [] ++ [out])) ∧
    (∀ d p, (p ≠ pkg.PkgPath ∨ d ∉ st.1.generators.map Prod.fst) →
      groupOf (visitTypeSpec pkg st node).1.cmdData d p = groupOf st.1.cmdData d p) := by
  have hv := visitTypeSpec_eq st.1.generators pkg node st rfl
  refine ⟨?_, ?_, ?_, ?_⟩
  · rw [hv, typeSpecMatches_eq]
    rfl
  · intro d tg hd
    rw [hv, groupOf_foldl_addStep, typeSpecMatches_filter_registered _ pkg node d tg hnd hd]
  · intro d tg c out imports hd hone hcall
    rw [hv, groupOf_foldl_addStep, typeSpecMatches_filter_registered _ pkg node d tg hnd hd,
      hone]
    simp only [List.map_cons, List.map_nil, List.foldl_cons, List.foldl_nil, groupStep,
      Match.call, hcall]
    cases groupOf st.1.cmdData d pkg.PkgPath <;>
      simp [cmdData.add, newGeneratorData]
  · intro d p h
    rw [hv, groupOf_foldl_addStep, typeSpecMatches_filter_other _ pkg node d p h]
    rfl

/-- C5 at the declaration `User` of the example package, documented with the
markers of `settable-input` and of `paginator`: each of the two directive
groups receives one output. -/
theorem visitTypeSpec_fires_named_directives_witness :
    (exampleEngine.generators.map Prod.fst).Nodup ∧
    groupOf (visitTypeSpec modelsPkg (exampleEngine, []) userNode).1.cmdData
        "settable-input" modelsPkg.PkgPath
      = some { PackageName := "models", Imports := ["time"], Specs := [.settable userSpec] } ∧
    groupOf (visitTypeSpec modelsPkg (exampleEngine, []) userNode).1.cmdData
        "paginator" modelsPkg.PkgPath
      = some { PackageName := "models", Imports := ["strconv"], Specs := [.paginator "User"] } :=
  ⟨by decide,
    ((visitTypeSpec_fires_named_directives modelsPkg userNode (exampleEngine, [])
        (by decide)).2.1 "settable-input"
        { Template := "SettableTemplate", GeneratorFunc := Settable 2 }
        (.tail _ (.head _))).trans (by decide),
    ((visitTypeSpec_fires_named_directives modelsPkg userNode (exampleEngine, [])
        (by decide)).2.1 "paginator"
        { Template := "PaginatorTemplate", GeneratorFunc := Paginator }
        (.head _)).trans (by decide)⟩

/-- **C6, as stated, fails.** On an engine with one match in each of two
packages, a second run of `Generate` on the same engine leaves every group
with its output twice, and writes other text to the same files than the
first run did: the groups and the rendered text after two runs are not those
after one run. -/
theorem Generate_twice_repeats_specs :
    groupOf (twoGroups.Generate plainEnv).sg.cmdData "names" "proj/a"
      = some { PackageName := "a", Imports := ["strconv"], Specs := ["T0"] } ∧
    groupOf ((twoGroups.Generate plainEnv).sg.Generate plainEnv).sg.cmdData "names" "proj/a"
      = some { PackageName := "a", Imports := ["strconv"], Specs := ["T0", "T0"] } ∧
    (twoGroups.Generate plainEnv).result = .nil ∧
    (twoGroups.Generate plainEnv).trace
      = [.execute "names" "proj/a", .create "a/names_gen.go", .write "a/names_gen.go" "a:T0",
         .execute "names" "proj/b", .create "b/names_gen.go", .write "b/names_gen.go" "b:T1"] ∧
    ((twoGroups.Generate plainEnv).sg.Generate plainEnv).result = .nil ∧
    ((twoGroups.Generate plainEnv).sg.Generate plainEnv).trace
      = [.execute "names" "proj/a", .create "a/names_gen.go",
         .write "a/names_gen.go" "a:T0,T0",
         .execute "names" "proj/b", .create "b/names_gen.go",
         .write "b/names_gen.go" "b:T1,T1"] := by
  refine ⟨by decide, by decide, by decide, by decide, by decide, by decide⟩

/-- **C6, amended.** `Generate` is deterministic up to the early end of
`write`.  Take two engines with the same packages and the same registry,
visited in any two orders, and with the same groups to start from, and let
every template parse.  Then the two runs end with equal groups (package name,
ordered specs and imports of every group).  If moreover the first run is not
cut short (it returns `nil` or the collected errors, and not the error of a
template execution or a panic), then neither is the second, one returns `nil`
exactly when the other does, and the two runs produce the same events: the
same templates executed for the same groups and the same text written to the
same files.  These events are those of one pass of the loop of `write` for
every group, when no generator call failed, and none otherwise.
(Idempotence is left out: a second run on the same engine appends to the
groups of the first.) -/
theorem Generate_deterministic {σ : Type} (env : Env σ) (sg sg2 : SimpleGenerator σ)
    (hpk : (sg.pkgs.map (fun kp => kp.2.PkgPath)).Nodup)
    (hgn : (sg.generators.map Prod.fst).Nodup)
    (hp : sg.pkgs.Perm sg2.pkgs) (hg : sg.generators.Perm sg2.generators)
    (hwf : groupsWellFormed sg.cmdData) (hwf2 : groupsWellFormed sg2.cmdData)
    (hc : ∀ d p, groupOf sg.cmdData d p = groupOf sg2.cmdData d p)
    (hparse : ∀ d, env.templateParse (templateRawOf env sg.generators d) = true) :
    (∀ d p,
      groupOf (sg.Generate env).sg.cmdData d p = groupOf (sg2.Generate env).sg.cmdData d p) ∧
    ((sg.Generate env).result.completed = true →
      (sg2.Generate env).result.completed = true ∧
      ((sg.Generate env).result = .nil ↔ (sg2.Generate env).result = .nil) ∧
      (∀ e, e ∈ (sg.Generate env).trace ↔ e ∈ (sg2.Generate env).trace) ∧
      (∀ e, e ∈ (sg.Generate env).trace ↔
        ((scanMatches sg).filterMap Match.callError = [] ∧
          ∃ d p gd, groupOf (sg.Generate env).sg.cmdData d p = some gd ∧
            e ∈ (writeGroup env d (templateRawOf env sg.generators d) p gd).1))) := by
  have hgroup := Generate_groupOf_perm env sg sg2 hpk hgn hp hg hc
  have hraw := templateRawOf_perm env sg.generators sg2.generators hgn hg
  have herr := scanErrors_nil_of_perm sg sg2 hpk hgn hp hg
  have hparse2 : ∀ d, env.templateParse (templateRawOf env sg2.generators d) = true := by
    intro d
    rw [← hraw d]
    exact hparse d
  refine ⟨hgroup, ?_⟩
  intro hdone
  have hdone2 : (sg2.Generate env).result.completed = true := by
    rw [Generate_completed_iff env sg2 hwf2 hparse2]
    rcases (Generate_completed_iff env sg hwf hparse).mp hdone with h | h
    · exact Or.inl (fun h2 => h (herr.mpr h2))
    · refine Or.inr ?_
      intro d p gd hgd
      rw [← hraw d]
      exact h d p gd ((hgroup d p).trans hgd)
  refine ⟨hdone2, ?_, ?_, Generate_trace_mem env sg hwf hparse hdone⟩
  · rw [Generate_nil_iff env sg hwf hparse hdone, Generate_nil_iff env sg2 hwf2 hparse2 hdone2,
      herr]
    constructor
    · rintro ⟨h1, h2⟩
      refine ⟨h1, ?_⟩
      intro d p gd hgd
      rw [← hraw d]
      exact h2 d p gd ((hgroup d p).trans hgd)
    · rintro ⟨h1, h2⟩
      refine ⟨h1, ?_⟩
      intro d p gd hgd
      rw [hraw d]
      exact h2 d p gd ((hgroup d p).symm.trans hgd)
  · intro e
    rw [Generate_trace_mem env sg hwf hparse hdone e,
      Generate_trace_mem env sg2 hwf2 hparse2 hdone2 e, herr]
    constructor
    · rintro ⟨h1, d, p, gd, hgd, he⟩
      refine ⟨h1, d, p, gd, (hgroup d p).symm.trans hgd, ?_⟩
      rw [← hraw d]
      exact he
    · rintro ⟨h1, d, p, gd, hgd, he⟩
      refine ⟨h1, d, p, gd, (hgroup d p).trans hgd, ?_⟩
      rw [hraw d]
      exact he

/-- The amended C6 at the engine with two packages and the same engine with
the package map visited in the other order: the group lists and the traces
come out in different orders, both runs return `nil`, the groups are equal
and the events are the same. -/
theorem Generate_deterministic_witness :
    (twoGroups.pkgs.map (fun kp => kp.2.PkgPath)).Nodup ∧
    (twoGroups.generators.map Prod.fst).Nodup ∧
    twoGroups.pkgs.Perm twoGroupsSwapped.pkgs ∧
    (twoGroups.Generate plainEnv).sg.cmdData ≠ (twoGroupsSwapped.Generate plainEnv).sg.cmdData ∧
    (twoGroups.Generate plainEnv).trace ≠ (twoGroupsSwapped.Generate plainEnv).trace ∧
    (twoGroups.Generate plainEnv).result.completed = true ∧
    Event.write "b/names_gen.go" "b:T1" ∈ (twoGroups.Generate plainEnv).trace ∧
    ((∀ d p,
      groupOf (twoGroups.Generate plainEnv).sg.cmdData d p
        = groupOf (twoGroupsSwapped.Generate plainEnv).sg.cmdData d p) ∧
    ((twoGroups.Generate plainEnv).result.completed = true →
      (twoGroupsSwapped.Generate plainEnv).result.completed = true ∧
      ((twoGroups.Generate plainEnv).result = .nil ↔
        (twoGroupsSwapped.Generate plainEnv).result = .nil) ∧
      (∀ e, e ∈ (twoGroups.Generate plainEnv).trace ↔
        e ∈ (twoGroupsSwapped.Generate plainEnv).trace) ∧
      (∀ e, e ∈ (twoGroups.Generate plainEnv).trace ↔
        ((scanMatches twoGroups).filterMap Match.callError = [] ∧
          ∃ d p gd, groupOf (twoGroups.Generate plainEnv).sg.cmdData d p = some gd ∧
            e ∈ (writeGroup plainEnv d
              (templateRawOf plainEnv twoGroups.generators d) p gd).1)))) :=
  ⟨by decide, by decide, (List.reverse_perm _).symm, by decide, by decide, by decide, by decide,
    Generate_deterministic plainEnv twoGroups twoGroupsSwapped (by decide) (by decide)
      (List.reverse_perm _).symm (List.Perm.refl _) groupsWellFormed_nil groupsWellFormed_nil
      (fun _ _ => rfl) (fun _ => rfl)⟩

/-- **C7, as stated, fails.** The struct `Digest` has two declared fields,
none embedded, both with a json key; `parseSettableStruct` succeeds and
returns one descriptor only: the field `Sum` of array type is left out. -/
theorem parseSettableStruct_skips_array_field :
    GetStructType arrayPkg "Digest"
      = .ok ⟨[⟨"Sum", false, .Other, "json:\"sum\""⟩,
              ⟨"Size", false, .Basic "int", "json:\"size\""⟩]⟩ ∧
    parseSettableStruct 1 arrayPkg "Digest"
      = some (.returns
          (some { Name := "Digest"
                  Fields := [{ Name := "Size", TypeName := "int", Tags := "json:\"size\"",
                               JSONTag := "size" }] }, [], none)) := by
  refine ⟨rfl, by decide⟩

/-- **C7, amended.** For a struct type without embedded fields, a successful
`parseSettableStruct` returns one descriptor for every declared field whose
type has a text in `extractFieldInfo` (named, basic, interface, pointer,
slice or map type), in declaration order, each with the name, raw tag and
serialization key of its field; when every declared field has such a type
these are exactly the descriptors of the N declared fields, position by
position. -/
theorem parseSettableStruct_descriptors (fuel : Nat) (pkg : Package) (structName : String)
    (st : StructType) (spec : InputToSettableSpecData) (imports : List String)
    (hst : GetStructType pkg structName = .ok st)
    (hemb : ∀ f ∈ st.Fields, f.Embedded = false)
    (hok : parseSettableStruct (fuel + 1) pkg structName
      = some (.returns (some spec, imports, none))) :
    spec.Fields = (st.Fields.filter (hasTypeText pkg)).map (fieldDescriptor pkg) ∧
    ((∀ f ∈ st.Fields, hasTypeText pkg f = true) →
      spec.Fields.length = st.Fields.length ∧
      ∀ i (hi : i < st.Fields.length),
        spec.Fields.get? i = some (fieldDescriptor pkg (st.Fields.get ⟨i, hi⟩))) := by
  have hfields : spec.Fields = (st.Fields.filter (hasTypeText pkg)).map (fieldDescriptor pkg) := by
    rw [parseSettableStruct] at hok
    simp only [hst] at hok
    rcases hp : parseFields (parseSettableStruct fuel pkg) pkg structName st.Fields [] []
      with _ | ((err | ⟨fields, imps⟩) | _)
    · simp [hp] at hok
    · simp [hp] at hok
    · simp only [hp, Option.some.injEq, Outcome.returns.injEq, Prod.mk.injEq, and_true] at hok
      have h := (parseFields_plain_returns _ pkg structName st.Fields [] [] _ hemb hp).1
      simp only [List.nil_append] at h
      rw [← hok.1]
      exact h
    · simp [hp] at hok
  refine ⟨hfields, ?_⟩
  intro hall
  have hfilter : st.Fields.filter (hasTypeText pkg) = st.Fields :=
    List.filter_eq_self.mpr hall
  rw [hfilter] at hfields
  refine ⟨by rw [hfields, List.length_map], ?_⟩
  intro i hi
  rw [hfields, List.get?_eq_getElem?, List.getElem?_map, List.getElem?_eq_getElem hi]
  rfl

/-- The amended C7 at the struct `PaginateOptions` of the example package. -/
theorem parseSettableStruct_descriptors_witness :
    GetStructType modelsPkg "PaginateOptions" = .ok paginateOptionsType ∧
    (∀ f ∈ paginateOptionsType.Fields, f.Embedded = false) ∧
    parseSettableStruct 1 modelsPkg "PaginateOptions"
      = some (.returns (some paginateOptionsSpec, [], none)) ∧
    (paginateOptionsSpec.Fields
        = (paginateOptionsType.Fields.filter (hasTypeText modelsPkg)).map
            (fieldDescriptor modelsPkg) ∧
      ((∀ f ∈ paginateOptionsType.Fields, hasTypeText modelsPkg f = true) →
        paginateOptionsSpec.Fields.length = paginateOptionsType.Fields.length ∧
        ∀ i (hi : i < paginateOptionsType.Fields.length),
          paginateOptionsSpec.Fields.get? i
            = some (fieldDescriptor modelsPkg (paginateOptionsType.Fields.get ⟨i, hi⟩)))) :=
  ⟨rfl, by decide, by decide,
    parseSettableStruct_descriptors 0 modelsPkg "PaginateOptions" paginateOptionsType
      paginateOptionsSpec [] rfl (by decide) (by decide)⟩

/-- **C8.** Let the struct `structName` have the embedded member `e` between
the members `before` and `after`, and let `parseSettableStruct` succeed on
it.  Then the call for the embedded struct (looked up under the name of `e`
in the same package) succeeds with some descriptors and imports, the field
loop succeeds on `before` and on `after` alone, and the result is the
descriptors of `before`, then exactly the descriptors of the embedded struct
in their order, then the descriptors of `after`; the imports are spliced in
the same way.  The result of the embedded struct does not depend on the
recursion bound. -/
theorem parseSettableStruct_splices_embedded (fuel : Nat) (pkg : Package)
    (structName : String) (st : StructType) (before after : List Field) (e : Field)
    (spec : InputToSettableSpecData) (imports : List String)
    (hst : GetStructType pkg structName = .ok st)
    (hfields : st.Fields = before ++ e :: after)
    (he : e.Embedded = true)
    (hok : parseSettableStruct (fuel + 1) pkg structName
      = some (.returns (some spec, imports, none))) :
    ∃ specE impE fb ib fa ia,
      parseSettableStruct fuel pkg e.Name = some (.returns (some specE, impE, none)) ∧
      parseFields (parseSettableStruct fuel pkg) pkg structName before [] []
        = some (.returns (.ok (fb, ib))) ∧
      parseFields (parseSettableStruct fuel pkg) pkg structName after [] []
        = some (.returns (.ok (fa, ia))) ∧
      spec.Fields = fb ++ specE.Fields ++ fa ∧
      imports = ib ++ impE ++ ia ∧
      ∀ n r, parseSettableStruct n pkg e.Name = some r →
        r = .returns (some specE, impE, none) := by
  rw [parseSettableStruct] at hok
  simp only [hst, hfields] at hok
  rw [parseFields_append] at hok
  rcases hb : parseFields (parseSettableStruct fuel pkg) pkg structName before [] []
    with _ | ((errB | ⟨fb, ib⟩) | _)
  · simp [hb] at hok
  · simp [hb] at hok
  · simp only [hb] at hok
    rw [parseFields_cons_embedded _ _ _ _ _ _ _ he] at hok
    rcases hE : parseSettableStruct fuel pkg e.Name
      with _ | (⟨_ | specE, impE, _ | errE⟩ | _)
    · simp [hE] at hok
    · simp [hE] at hok
    · simp [hE] at hok
    · simp only [hE] at hok
      rw [parseFields_acc] at hok
      rcases ha : parseFields (parseSettableStruct fuel pkg) pkg structName after [] []
        with _ | ((errA | ⟨fa, ia⟩) | _)
      · simp [ha] at hok
      · simp [ha] at hok
      · simp only [ha, Option.some.injEq, Outcome.returns.injEq, Prod.mk.injEq,
          and_true] at hok
        refine ⟨specE, impE, fb, ib, fa, ia, rfl, rfl, rfl, ?_, ?_, ?_⟩
        · rw [← hok.1]
        · rw [← hok.2]
        · intro n r hn
          have h1 := parseSettableStruct_mono_le pkg e.Name r n (max n fuel) (le_max_left _ _) hn
          have h2 := parseSettableStruct_mono_le pkg e.Name _ fuel (max n fuel)
            (le_max_right _ _) hE
          rw [h1] at h2
          exact Option.some.inj h2
      · simp [ha] at hok
    · simp [hE] at hok
    · simp [hE] at hok
  · simp [hb] at hok

/-- C8 at the struct `User` of the example package, which embeds `Common`
before its four own fields: the descriptors are those of `Common` followed by
those of the own fields, as in `settable-input_gen.go`. -/
theorem parseSettableStruct_splices_embedded_witness :
    GetStructType modelsPkg "User" = .ok userType ∧
    parseSettableStruct 2 modelsPkg "User" = some (.returns (some userSpec, ["time"], none)) ∧
    ∃ specE impE fb ib fa ia,
      parseSettableStruct 1 modelsPkg "Common" = some (.returns (some specE, impE, none)) ∧
      parseFields (parseSettableStruct 1 modelsPkg) modelsPkg "User" [] [] []
        = some (.returns (.ok (fb, ib))) ∧
      parseFields (parseSettableStruct 1 modelsPkg) modelsPkg "User" userType.Fields.tail [] []
        = some (.returns (.ok (fa, ia))) ∧
      userSpec.Fields = fb ++ specE.Fields ++ fa ∧
      ["time"] = ib ++ impE ++ ia ∧
      ∀ n r, parseSettableStruct n modelsPkg "Common" = some r →
        r = .returns (some specE, impE, none) :=
  ⟨rfl, by decide,
    parseSettableStruct_splices_embedded 1 modelsPkg "User" userType [] userType.Fields.tail
      ⟨"Common", true, .Named (some ⟨"examples/my_project/models", "models"⟩) "Common", ""⟩
      userSpec ["time"] rfl rfl rfl (by decide)⟩

/-- **C9, the code at the failing input.** The struct `Failure` has no
embedded field and each of its two fields has a json key, yet
`parseSettableStruct` does not succeed on it: for the field `Err` of type
`error`, whose `Obj().Pkg()` is `nil`, `getFieldInfo` dereferences the nil
package and the call panics.  The struct `Report` has a field without any tag
after such a field, and `parseSettableStruct` does not return the error for
it either: it panics at the field before.  In both cases nothing is
returned. -/
theorem parseSettableStruct_panics_on_error_field :
    GetStructType errorPkg "Failure" = .ok failureType ∧
    (∀ f ∈ failureType.Fields, f.Embedded = false ∧ parseJSONOrYamlTag f.Tag ≠ "") ∧
    (∀ fuel, parseSettableStruct (fuel + 1) errorPkg "Failure" = some .panics) ∧
    GetStructType errorPkg "Report" = .ok reportType ∧
    (∀ f ∈ reportType.Fields, f.Embedded = false) ∧
    (∃ f ∈ reportType.Fields, parseJSONOrYamlTag f.Tag = "") ∧
    (∀ fuel, parseSettableStruct (fuel + 1) errorPkg "Report" = some .panics) := by
  refine ⟨rfl, by decide, ?_, rfl, by decide, by decide, ?_⟩
  · intro fuel
    exact parseSettableStruct_plain_panics fuel errorPkg "Failure" failureType rfl
      (by decide) (by decide) (by decide)
  · intro fuel
    rw [parseSettableStruct]
    have hst : GetStructType errorPkg "Report" = .ok reportType := rfl
    simp only [hst]
    have hp : parseFields (parseSettableStruct fuel errorPkg) errorPkg "Report"
        reportType.Fields [] [] = some .panics := by
      have ht : parseJSONOrYamlTag "json:\"err\"" ≠ "" := by decide
      rw [reportType, parseFields_cons_plain _ _ _ _ _ _ _ rfl]
      simp only [ht, if_false]
      rfl
    rw [hp]

/-- **C10, the code at the failing input.** On the three tags of its doc
comment `parseJSONOrYamlTag` gives what the comment says.  On the tag
`json:"phone" geojson:"x"`, where the json key is present with the value
`phone`, it gives the empty string: the piece `geojson:"x"` contains `json:`,
so `tag[5:]`, here `on:"x"`, is unquoted, that fails, and the function
returns `""`.  The same happens when the text `json:` stands in the value of
another key. -/
theorem parseJSONOrYamlTag_foreign_key :
    parseJSONOrYamlTag "yaml:\"phoneYaml\" json:\"phone\"" = "phone" ∧
    parseJSONOrYamlTag "yaml:\"phoneYaml\"" = "phoneYaml" ∧
    parseJSONOrYamlTag "db:\"phone\"" = "" ∧
    parseJSONOrYamlTag "json:\"phone\"" = "phone" ∧
    parseJSONOrYamlTag "json:\"phone\" geojson:\"x\"" = "" ∧
    parseJSONOrYamlTag "json:\"phone\" db:\"json:x\"" = "" := by
  refine ⟨by decide, by decide, by decide, by decide, by decide, by decide⟩

/-- **C11, as stated, fails.** The field `*Common` of a struct of the package
`models` is a pointer to a named type of that same package: the description
is `*Common` and the import list is empty, not one identifier. -/
theorem extractFieldInfo_pointer_same_package :
    extractFieldInfo
        (.Pointer (.Named (some ⟨"examples/my_project/models", "models"⟩) "Common")) modelsPkg
      = .returns ("*Common", []) := by
  decide

/-- **C11, amended.** For a field whose type is a pointer to a named type
that belongs to a package (every named type but those of the universe scope,
whose package is `nil`), `extractFieldInfo` returns the pointer marker `*`
followed by the description of the named type, with the import list of the
named type: no import when the named type is defined in the current package
(the description is its bare name), and exactly one import, the path of the
defining package, when it is defined in another package, of a path that is
not empty (the description is `name.Type`). -/
theorem extractFieldInfo_pointer_named (fieldPkg : TypesPackage) (t : String)
    (pkg : Package) :
    (∃ r, extractFieldInfo (.Named (some fieldPkg) t) pkg = .returns r ∧
      extractFieldInfo (.Pointer (.Named (some fieldPkg) t)) pkg
        = .returns ("*" ++ r.1, r.2)) ∧
    (fieldPkg.Path = pkg.PkgPath →
      extractFieldInfo (.Pointer (.Named (some fieldPkg) t)) pkg = .returns ("*" ++ t, [])) ∧
    (fieldPkg.Path ≠ pkg.PkgPath → fieldPkg.Path ≠ "" →
      extractFieldInfo (.Pointer (.Named (some fieldPkg) t)) pkg
        = .returns ("*" ++ (fieldPkg.Name ++ "." ++ t), [fieldPkg.Path])) := by
  refine ⟨?_, ?_, ?_⟩
  · by_cases h : fieldPkg.Path = pkg.PkgPath
    · exact ⟨(t, []), by simp [extractFieldInfo, getFieldInfo, h],
        by simp [extractFieldInfo, getFieldInfo, h]⟩
    · exact ⟨(fieldPkg.Name ++ "." ++ t, if fieldPkg.Path != "" then [fieldPkg.Path] else []),
        by simp [extractFieldInfo, getFieldInfo, h],
        by simp [extractFieldInfo, getFieldInfo, h]⟩
  · intro h
    simp [extractFieldInfo, getFieldInfo, h]
  · intro h hne
    simp [extractFieldInfo, getFieldInfo, h, hne]

/-- The amended C11 at the field type `*time.Time` in the package `models`. -/
theorem extractFieldInfo_pointer_named_witness :
    "time" ≠ modelsPkg.PkgPath ∧ "time" ≠ "" ∧
    extractFieldInfo (.Pointer (.Named (some ⟨"time", "time"⟩) "Time")) modelsPkg
      = .returns ("*" ++ ("time" ++ "." ++ "Time"), ["time"]) :=
  ⟨by decide, by decide,
    (extractFieldInfo_pointer_named ⟨"time", "time"⟩ "Time" modelsPkg).2.2
      (by decide) (by decide)⟩

/-- **C12, the code at the failing input.** For a group of the package with
path `examples/my_project/models` the write step creates and writes
`my_project/models/paginator_gen.go`.  For a group of a package whose path
has no `/`, here `models`, the template is executed and formatted and then
`parts[1]` is out of range: `write` panics, no path is computed and no file
is written. -/
theorem write_panics_on_one_segment_path :
    (writePkgs plainEnv "paginator" "t"
        [("examples/my_project/models", { PackageName := "models", Imports := [], Specs := ["User"] })]
        ([], [])).toOption
      = some ([.execute "paginator" "examples/my_project/models",
               .create "my_project/models/paginator_gen.go",
               .write "my_project/models/paginator_gen.go" "models:User"], []) ∧
    (rootPkgEngine.Generate plainEnv).trace = [.execute "names" "models"] ∧
    (rootPkgEngine.Generate plainEnv).result = .panic := by
  refine ⟨by decide, by decide, by decide⟩

/-- **C13, as stated, fails.** The path `nosuch` is not in the index and the
loader fails for it; two calls of `GetPackage` for it invoke the loader
twice. -/
theorem GetPackage_reloads_after_failure :
    mapGet "nosuch" exampleEngine.pkgs = none ∧
    (getPackages loaderEnv exampleEngine ["nosuch", "nosuch"]).loads = ["nosuch", "nosuch"] ∧
    (getPackages loaderEnv exampleEngine ["nosuch", "nosuch"]).loads.count "nosuch" = 2 := by
  refine ⟨by decide, by decide, by decide⟩

/-- **C13, amended.** In every sequence of `GetPackage` calls the loader is
never invoked for a path that was in the index, and it is invoked at most
once for a path that it resolves to exactly one package.  A call for a path
in the index returns the indexed package without loading and leaves the
engine as it is; a successful load is stored under the path, and every later
call for the path, whatever calls come in between, returns the same package
without loading; when the loader fails or resolves to other than exactly one
package the call returns an error and leaves the engine as it is (so the next
call for the path loads again). -/
theorem GetPackage_loads_once {σ : Type} (env : Env σ) (sg : SimpleGenerator σ)
    (paths : List String) :
    (∀ p ∈ (getPackages env sg paths).loads, mapGet p sg.pkgs = none) ∧
    (∀ p pkg, env.packagesLoad [p] = .ok [pkg] →
      (getPackages env sg paths).loads.count p ≤ 1) ∧
    (∀ path pkg, mapGet path sg.pkgs = some pkg →
      sg.GetPackage env path = { sg := sg, pkg := .ok pkg, loads := [] }) ∧
    (∀ path pkg, mapGet path sg.pkgs = none → env.packagesLoad [path] = .ok [pkg] →
      (sg.GetPackage env path).pkg = .ok pkg ∧
      (sg.GetPackage env path).loads = [path] ∧
      (sg.GetPackage env path).sg.pkgs = mapSet path pkg sg.pkgs ∧
      ∀ between,
        ((getPackages env (sg.GetPackage env path).sg between).sg.GetPackage env path).pkg
            = .ok pkg ∧
        ((getPackages env (sg.GetPackage env path).sg between).sg.GetPackage env path).loads
            = []) ∧
    (∀ path, mapGet path sg.pkgs = none → (∀ pkg, env.packagesLoad [path] ≠ .ok [pkg]) →
      ∃ err, sg.GetPackage env path = { sg := sg, pkg := .error err, loads := [path] }) := by
  refine ⟨getPackages_loads_not_indexed env paths sg,
    fun p pkg h => getPackages_loads_count env paths sg p pkg h,
    fun path pkg h => GetPackage_hit env sg path pkg h, ?_,
    fun path h hl => GetPackage_fail env sg path h hl⟩
  intro path pkg hm hload
  have hcall := GetPackage_load env sg path pkg hm hload
  refine ⟨by rw [hcall], by rw [hcall], by rw [hcall], ?_⟩
  intro between
  have hidx : mapGet path (sg.GetPackage env path).sg.pkgs = some pkg := by
    rw [hcall]
    exact mapGet_mapSet_eq path pkg sg.pkgs
  have hlater := getPackages_index_stable env between _ path pkg hidx
  rw [GetPackage_hit env _ path pkg hlater]
  exact ⟨rfl, rfl⟩

/-- The amended C13 at the path `time`, which is not in the index of the
example engine and which the loader resolves to one package. -/
theorem GetPackage_loads_once_witness :
    mapGet "time" exampleEngine.pkgs = none ∧
    loaderEnv.packagesLoad ["time"] = .ok [timePkg] ∧
    ((exampleEngine.GetPackage loaderEnv "time").pkg = .ok timePkg ∧
      (exampleEngine.GetPackage loaderEnv "time").loads = ["time"] ∧
      (exampleEngine.GetPackage loaderEnv "time").sg.pkgs
        = mapSet "time" timePkg exampleEngine.pkgs ∧
      ∀ between,
        ((getPackages loaderEnv (exampleEngine.GetPackage loaderEnv "time").sg
            between).sg.GetPackage loaderEnv "time").pkg = .ok timePkg ∧
        ((getPackages loaderEnv (exampleEngine.GetPackage loaderEnv "time").sg
            between).sg.GetPackage loaderEnv "time").loads = []) :=
  ⟨by decide, rfl,
    (GetPackage_loads_once loaderEnv exampleEngine []).2.2.2.1 "time" timePkg (by decide) rfl⟩

/-- **C14, as stated, fails.** In a block documented with a directive marker
the declaration `A` has documentation of its own: after the copy-down it
still carries its own lines and not those of the block, and the scan matches
the marker against `B` only. -/
theorem copyGenDecl_keeps_own_doc :
    copyGenDeclCommentsToSpecs groupedDecl
      = { Doc := some [⟨"// simplegen:names"⟩]
          Specs := [.typeSpec ⟨"A", some [⟨"// A has its own documentation."⟩]⟩,
                    .typeSpec ⟨"B", some [⟨"// simplegen:names"⟩]⟩] } ∧
    (scanMatches groupedEngine).map (fun m => (m.genName, m.node.Name)) = [("names", "B")] ∧
    groupOf (groupedEngine.Generate plainEnv).sg.cmdData "names" "proj/a"
      = some { PackageName := "a", Imports := ["strconv"], Specs := ["B"] } := by
  refine ⟨by decide, by decide, by decide⟩

/-- **C14, amended.** For a declaration block with block-level documentation
the copy-down gives the lines of the block to every contained type
declaration that has no documentation of its own and leaves every other
member as it is; so the scan matches the lines of the block against each
contained declaration without documentation of its own.  In the traversal the
copy-down of a block comes before the visit of its members: the members
visited are those of the copied block. -/
theorem copyGenDecl_fills_missing_docs {σ : Type} (x : GenDecl) (doc : List Comment)
    (hdoc : x.Doc = some doc) :
    (copyGenDeclCommentsToSpecs x).Doc = some doc ∧
    (copyGenDeclCommentsToSpecs x).Specs = x.Specs.map (fillDoc doc) ∧
    (∀ s, Spec.typeSpec s ∈ x.Specs → s.Doc = none →
      Spec.typeSpec { s with Doc := some doc } ∈ (copyGenDeclCommentsToSpecs x).Specs ∧
      ∀ (pkg : Package) (st : ScanState σ),
        visitSpec pkg st (.typeSpec { s with Doc := some doc })
          = (doc.flatMap
              (commentMatches st.1.generators pkg { s with Doc := some doc })).foldl addStep st) ∧
    (∀ s, Spec.typeSpec s ∈ x.Specs → s.Doc ≠ none →
      Spec.typeSpec s ∈ (copyGenDeclCommentsToSpecs x).Specs) ∧
    (∀ (mk : List GenDecl → Package) (done rest : List GenDecl) (st : ScanState σ),
      inspectDecls mk done (x :: rest) st
        = inspectDecls mk (done ++ [copyGenDeclCommentsToSpecs x]) rest
            ((copyGenDeclCommentsToSpecs x).Specs.foldl
              (visitSpec (mk (done ++ copyGenDeclCommentsToSpecs x :: rest))) st)) := by
  have hspecs : (copyGenDeclCommentsToSpecs x).Specs = x.Specs.map (fillDoc doc) := by
    unfold copyGenDeclCommentsToSpecs
    rw [hdoc]
    simp only
    apply List.map_congr_left
    intro spec _
    cases spec with
    | otherSpec => rfl
    | typeSpec s =>
      obtain ⟨name, sdoc⟩ := s
      cases sdoc <;> rfl
  refine ⟨?_, hspecs, ?_, ?_, ?_⟩
  · unfold copyGenDeclCommentsToSpecs
    rw [hdoc]
  · intro s hs hnone
    refine ⟨?_, ?_⟩
    · rw [hspecs]
      refine List.mem_map.mpr ⟨.typeSpec s, hs, ?_⟩
      simp [fillDoc, hnone]
    · intro pkg st
      have h := visitTypeSpec_eq st.1.generators pkg { s with Doc := some doc } st rfl
      rw [typeSpecMatches_eq] at h
      exact h
  · intro s hs hsome
    rw [hspecs]
    refine List.mem_map.mpr ⟨.typeSpec s, hs, ?_⟩
    obtain ⟨name, sdoc⟩ := s
    cases sdoc with
    | none => exact absurd rfl hsome
    | some d => rfl
  · intro mk done rest st
    rfl

/-- The amended C14 at the grouped declaration: `B` gets the marker line of
the block. -/
theorem copyGenDecl_fills_missing_docs_witness :
    groupedDecl.Doc = some [⟨"// simplegen:names"⟩] ∧
    (copyGenDeclCommentsToSpecs groupedDecl).Specs
      = groupedDecl.Specs.map (fillDoc [⟨"// simplegen:names"⟩]) ∧
    Spec.typeSpec ⟨"B", some [⟨"// simplegen:names"⟩]⟩
      ∈ (copyGenDeclCommentsToSpecs groupedDecl).Specs :=
  ⟨rfl,
    (@copyGenDecl_fills_missing_docs String groupedDecl [⟨"// simplegen:names"⟩] rfl).2.1,
    ((@copyGenDecl_fills_missing_docs String groupedDecl [⟨"// simplegen:names"⟩] rfl).2.2.1
      ⟨"B", none⟩ (by decide) rfl).1⟩

end Simplegen
